import Mathlib

/-!
Verification development for the hop in-memory typed key-value store.

The engine's request parser (`engine/src/command/request/context.rs`) and the
command implementations (`engine/src/command/impl/{increment,append,set,is,type}.rs`)
are embedded shallowly below.  Byte strings are `List Nat` with each element a
byte value; buffers fed to the parser are `List Nat`.  Fallible operations
return `Except`/`Option`; the store is threaded explicitly, so a command
dispatch maps a store and a request to the resulting store together with either
a response payload or a `DispatchError`.

Parts of the repository that the claims depend on but whose sources are not
available (the `CommandId`/`KeyType` wire identifiers, the `Request` accessors,
the state store, the response writers, and the commands other than
Increment/Append/Set/Is/Type) are modelled from the specification; each such
definition carries a doc comment starting with `Modelled from the spec:`.
-/

namespace Hop

/-- Parse errors of the request parser, from `context.rs`. -/
inductive ParseError
  | commandIdInvalid
  | keyTypeInvalid
deriving DecidableEq, Repr

/-- The eight value kinds, from the spec's data model (the enum itself is not
under `src/`; the spec fixes the eight tags and their order). -/
inductive KeyType
  | bytes
  | boolean
  | float
  | integer
  | list
  | map
  | set
  | string
deriving DecidableEq, Repr

/-- Modelled from the spec: `KeyType` IDs are stable distinct small integers,
listed in the order `Bytes, Boolean, Float, Integer, List, Map, Set, String`
(spec section 6); `KeyType::try_from(u8)` accepts exactly those IDs. -/
def KeyType.tryFrom (n : Nat) : Option KeyType :=
  match n with
  | 0 => some .bytes
  | 1 => some .boolean
  | 2 => some .float
  | 3 => some .integer
  | 4 => some .list
  | 5 => some .map
  | 6 => some .set
  | 7 => some .string
  | _ => none

/-- The id of a key type, inverse of `KeyType.tryFrom`. -/
def KeyType.toId : KeyType → Nat
  | .bytes => 0
  | .boolean => 1
  | .float => 2
  | .integer => 3
  | .list => 4
  | .map => 5
  | .set => 6
  | .string => 7

/-- The command identifiers, from the spec's command catalogue. -/
inductive CommandId
  | increment
  | decrement
  | echo
  | set
  | get
  | delete
  | rename
  | exists
  | is
  | type
  | keys
  | length
  | append
  | stats
  | incrementBy
  | decrementBy
deriving DecidableEq, Repr

/-- Modelled from the spec: `CommandId` wire IDs (spec section 6, stable
integer encoding): `Increment=0`, `Decrement=1`, and the remaining commands in
the listed order.  `CommandId::try_from(u8)` accepts exactly those IDs. -/
def CommandId.tryFrom (n : Nat) : Option CommandId :=
  match n with
  | 0 => some .increment
  | 1 => some .decrement
  | 2 => some .echo
  | 3 => some .set
  | 4 => some .get
  | 5 => some .delete
  | 6 => some .rename
  | 7 => some .exists
  | 8 => some .is
  | 9 => some .type
  | 10 => some .keys
  | 11 => some .length
  | 12 => some .append
  | 13 => some .stats
  | 14 => some .incrementBy
  | 15 => some .decrementBy
  | _ => none

/-- Modelled from the spec: a simple command takes neither arguments nor a key
and is framed as a single opcode byte; `Stats` is the simple command
(spec sections 4.6 and 6). -/
def CommandId.is_simple : CommandId → Bool
  | .stats => true
  | _ => false

/-- A parsed request: command kind, optional declared key type, optional
argument list (spec section 3). -/
structure Request where
  kind : CommandId
  keyType : Option KeyType
  args : Option (List (List Nat))
deriving DecidableEq, Repr

/-- Modelled from the spec: `Request::arg(i)` is the `i`-th argument byte
string, when the request carries arguments and the index is in bounds. -/
def Request.arg (req : Request) (i : Nat) : Option (List Nat) :=
  req.args.bind fun l => l.get? i

/-- Modelled from the spec: `Request::key()` is the first argument, which is
conventionally the key. -/
def Request.key (req : Request) : Option (List Nat) :=
  req.arg 0

/-- Modelled from the spec: `Request::args(i..)` returns the arguments from
index `i` on, when the request carries arguments and `i` is at most their
number (Rust slice-range semantics: `v.get(i..)` is `Some` iff `i <= v.len()`). -/
def Request.args_from (req : Request) (i : Nat) : Option (List (List Nat)) :=
  req.args.bind fun l => if i ≤ l.length then some (l.drop i) else none

/-- The three parser stages, from `context.rs`. -/
inductive Stage
  | init
  | kind (cmd_type : CommandId) (key_type : Option KeyType)
  | argumentParsing (argument_count : Nat) (cmd_type : CommandId) (key_type : Option KeyType)
deriving DecidableEq, Repr

/-- Result of running one parser stage, from `ContextConclusion` in the
command module. -/
inductive Conclusion
  | finished (req : Request)
  | incomplete
  | next
deriving DecidableEq, Repr

/-- Parser state, from `context.rs`.  The argument-vector pool is not carried:
vectors in the pool are cleared before being pushed, so a pulled vector is
always empty and the pool affects allocation reuse only, never the parsed
request. -/
structure Context where
  buf_args : Option (List (List Nat))
  idx : Nat
  stage : Stage
deriving DecidableEq, Repr

/-- A fresh parser context, from `Context::default`. -/
def Context.fresh : Context :=
  { buf_args := some [], idx := 0, stage := .init }

/-- Rust slice indexing `buf.get(s..e)`: the sub-slice when `s <= e <= len`. -/
def sliceGet (buf : List Nat) (s e : Nat) : Option (List Nat) :=
  if s ≤ e ∧ e ≤ buf.length then some ((buf.drop s).take (e - s)) else none

/-- Big-endian byte-list to number, as `u32::from_be_bytes` on 4 bytes. -/
def beToNat (l : List Nat) : Nat :=
  l.foldl (fun a b => a * 256 + b) 0

/-- From `Context::push_arg`: append an argument to the buffered argument list,
repairing a missing list. -/
def Context.push_arg (ctx : Context) (arg : List Nat) : Context :=
  match ctx.buf_args with
  | some args => { ctx with buf_args := some (args ++ [arg]) }
  | none => { ctx with buf_args := some [arg] }

/-- From `Context::arg_count`: the number of buffered arguments, repairing a
missing list. -/
def Context.arg_count (ctx : Context) : Nat × Context :=
  match ctx.buf_args with
  | some args => (args.length, ctx)
  | none => (0, { ctx with buf_args := some [] })

/-- From `Context::stage_init`: read the opcode byte (`buf.first()`), decode
the optional key type from bit 7 and the command id from the full byte; a
simple command finishes at once, otherwise advance to the `Kind` stage. -/
def Context.stage_init (ctx : Context) (buf : List Nat) :
    Except ParseError (Conclusion × Context) :=
  match buf.head? with
  | none => .ok (.incomplete, ctx)
  | some byte =>
    let keyTypeRes : Except ParseError (Option KeyType) :=
      if byte >>> 7 == 1 then
        match KeyType.tryFrom (byte >>> 1) with
        | some kt => .ok (some kt)
        | none => .error .keyTypeInvalid
      else
        .ok none
    match keyTypeRes with
    | .error e => .error e
    | .ok key_type =>
      match CommandId.tryFrom byte with
      | none => .error .commandIdInvalid
      | some cmd_type =>
        if cmd_type.is_simple then
          .ok (.finished { kind := cmd_type, keyType := none, args := none },
               { ctx with stage := .init })
        else
          .ok (.next, { ctx with stage := .kind cmd_type key_type, idx := ctx.idx + 1 })

/-- From `Context::stage_kind`: read the argument-count byte at the cursor and
advance to the `ArgumentParsing` stage. -/
def Context.stage_kind (ctx : Context) (buf : List Nat) (key_type : Option KeyType)
    (cmd_type : CommandId) : Except ParseError (Conclusion × Context) :=
  match buf.get? ctx.idx with
  | none => .ok (.incomplete, ctx)
  | some argument_count =>
    .ok (.next,
         { ctx with
             stage := .argumentParsing argument_count cmd_type key_type,
             idx := ctx.idx + 1 })

/-- From `Context::stage_argument_parsing`: read 4 length bytes at the cursor,
then take `arg_len` bytes starting at the cursor (exactly as the source does),
push them as an argument, advance the cursor by `4 + arg_len`, and finish when
the buffered count reaches the declared count. -/
def Context.stage_argument_parsing (ctx : Context) (buf : List Nat)
    (cmd_type : CommandId) (key_type : Option KeyType) (argument_count : Nat) :
    Except ParseError (Conclusion × Context) :=
  match sliceGet buf ctx.idx (ctx.idx + 4) with
  | none => .ok (.incomplete, ctx)
  | some len_bytes =>
    let arg_len := beToNat len_bytes
    match sliceGet buf ctx.idx (ctx.idx + arg_len) with
    | none => .ok (.incomplete, ctx)
    | some arg =>
      let ctx1 := ctx.push_arg arg
      let ctx2 := { ctx1 with idx := ctx1.idx + 4 + arg_len }
      let pair := ctx2.arg_count
      let ctx3 := pair.2
      if pair.1 == argument_count then
        let args := ctx3.buf_args
        .ok (.finished { kind := cmd_type, keyType := key_type, args := args },
             { ctx3 with buf_args := none })
      else
        .ok (.next, ctx3)

/-- One iteration of the `feed` loop: dispatch on the current stage. -/
def Context.stageStep (ctx : Context) (buf : List Nat) :
    Except ParseError (Conclusion × Context) :=
  match ctx.stage with
  | .init => ctx.stage_init buf
  | .kind cmd_type key_type => ctx.stage_kind buf key_type cmd_type
  | .argumentParsing argument_count cmd_type key_type =>
    ctx.stage_argument_parsing buf cmd_type key_type argument_count

/-- The `feed` loop with explicit fuel.  Each `Next` iteration strictly
increases the cursor, so `buf.length + 2` fuel always suffices (proved below);
the fuel-exhausted branch is unreachable at that fuel. -/
def feedAux : Nat → Context → List Nat → Except ParseError (Option Request × Context)
  | 0, ctx, _ => .ok (none, ctx)
  | fuel + 1, ctx, buf =>
    if buf.length < ctx.idx then .ok (none, ctx)
    else
      match ctx.stageStep buf with
      | .error e => .error e
      | .ok (.finished req, ctx') => .ok (some req, ctx')
      | .ok (.incomplete, ctx') => .ok (none, ctx')
      | .ok (.next, ctx') => feedAux fuel ctx' buf

/-- From `Context::feed`: loop over the stages until a request is finished, the
input is exhausted, or a parse error occurs.  Returns the produced request (if
any) and the updated context. -/
def Context.feed (ctx : Context) (buf : List Nat) :
    Except ParseError (Option Request × Context) :=
  feedAux (buf.length + 2) ctx buf

/-- From `Context::reset`: the argument vectors are cleared and pooled, the
cursor returns to the start and the stage to `Init`. -/
def Context.reset (ctx : Context) : Context :=
  { ctx with stage := .init, idx := 0, buf_args := some [] }

/-- Cumulative piecewise feeding: feed the concatenation of the parts received
so far, re-invoking `feed` on the grown buffer as each part arrives, and stop
at the first produced request. -/
def runParts (ctx : Context) (acc : List Nat) :
    List (List Nat) → Except ParseError (Option Request)
  | [] => .ok none
  | p :: rest =>
    match ctx.feed (acc ++ p) with
    | .error e => .error e
    | .ok (some req, _) => .ok (some req)
    | .ok (none, ctx') => runParts ctx' (acc ++ p) rest

/-- Whether a byte is a UTF-8 continuation byte (`10xxxxxx`). -/
def utf8Cont (b : Nat) : Bool :=
  0x80 ≤ b && b ≤ 0xBF

/-- UTF-8 validity of a byte string, as `core::str::from_utf8` checks it
(RFC 3629: no overlong forms, no surrogates, max U+10FFFF). -/
def isUtf8 : List Nat → Bool
  | [] => true
  | b :: r =>
    if b ≤ 0x7F then isUtf8 r
    else if 0xC2 ≤ b && b ≤ 0xDF then
      match r with
      | c1 :: r1 => utf8Cont c1 && isUtf8 r1
      | [] => false
    else if b == 0xE0 then
      match r with
      | c1 :: c2 :: r2 => (0xA0 ≤ c1 && c1 ≤ 0xBF) && utf8Cont c2 && isUtf8 r2
      | _ => false
    else if (0xE1 ≤ b && b ≤ 0xEC) || b == 0xEE || b == 0xEF then
      match r with
      | c1 :: c2 :: r2 => utf8Cont c1 && utf8Cont c2 && isUtf8 r2
      | _ => false
    else if b == 0xED then
      match r with
      | c1 :: c2 :: r2 => (0x80 ≤ c1 && c1 ≤ 0x9F) && utf8Cont c2 && isUtf8 r2
      | _ => false
    else if b == 0xF0 then
      match r with
      | c1 :: c2 :: c3 :: r3 =>
        (0x90 ≤ c1 && c1 ≤ 0xBF) && utf8Cont c2 && utf8Cont c3 && isUtf8 r3
      | _ => false
    else if 0xF1 ≤ b && b ≤ 0xF3 then
      match r with
      | c1 :: c2 :: c3 :: r3 => utf8Cont c1 && utf8Cont c2 && utf8Cont c3 && isUtf8 r3
      | _ => false
    else if b == 0xF4 then
      match r with
      | c1 :: c2 :: c3 :: r3 =>
        (0x80 ≤ c1 && c1 ≤ 0x8F) && utf8Cont c2 && utf8Cont c3 && isUtf8 r3
      | _ => false
    else false

/-- A stored value, one variant per `KeyType` (spec data model).  The float
variant carries the raw 8 big-endian bytes of the IEEE-754 binary64 value;
float arithmetic is not modelled. -/
inductive Value
  | boolean (b : Bool)
  | bytes (bs : List Nat)
  | float (bits : List Nat)
  | integer (i : Int)
  | list (l : List (List Nat))
  | map (m : List (List Nat × List Nat))
  | set (s : List (List Nat))
  | str (s : List Nat)
deriving DecidableEq, Repr

/-- The kind of a value, from `Value::kind`. -/
def Value.kind : Value → KeyType
  | .boolean _ => .boolean
  | .bytes _ => .bytes
  | .float _ => .float
  | .integer _ => .integer
  | .list _ => .list
  | .map _ => .map
  | .set _ => .set
  | .str _ => .string

/-- The encoding of the IEEE-754 binary64 zero, the payload of the empty float
value `Value::float()`. -/
def floatZeroBits : List Nat :=
  [0, 0, 0, 0, 0, 0, 0, 0]

/-- A key of the store: an arbitrary byte string. -/
abbrev Key := List Nat

/-- Modelled from the spec: the state store is a mapping from byte-string keys
to values; it is embedded as an association list (first match wins). -/
abbrev State := List (Key × Value)

/-- Modelled from the spec: value lookup, as behind `key_ref`/`typed_key`. -/
def State.get : State → Key → Option Value
  | [], _ => none
  | (k', v) :: rest, k => if k' = k then some v else State.get rest k

/-- Modelled from the spec: `remove(k)` drops the binding of `k`. -/
def State.remove : State → Key → State
  | [], _ => []
  | (k', v) :: rest, k =>
    if k' = k then State.remove rest k else (k', v) :: State.remove rest k

/-- Modelled from the spec: mutation through a write guard replaces the value
bound to the key, in place. -/
def State.update : State → Key → Value → State
  | [], _, _ => []
  | (k', v') :: rest, k, v =>
    if k' = k then (k, v) :: rest else (k', v') :: State.update rest k v

/-- Modelled from the spec: `key_or_insert_with(k, factory)` creates the key
with the factory's empty value when absent. -/
def State.key_or_insert_with (st : State) (k : Key) (f : Unit → Value) : State :=
  match st.get k with
  | some _ => st
  | none => st ++ [(k, f ())]

/-- Modelled from the spec: `key_type(k)` is the kind of the stored value. -/
def State.keyType (st : State) (k : Key) : Option KeyType :=
  (st.get k).map Value.kind

/-- Modelled from the spec: `insert(k, v)` binds `k` to `v`, replacing any
previous binding. -/
def State.insert (st : State) (k : Key) (v : Value) : State :=
  st.remove k ++ [(k, v)]

/-- Big-endian encoding of `n` on `width` bytes. -/
def beBytes (width n : Nat) : List Nat :=
  (List.range width).map fun i => n / 256 ^ (width - 1 - i) % 256

/-- Modelled from the spec: the boolean response payload is one byte, 0 or 1
(spec section 6). -/
def writeBool (b : Bool) : List Nat :=
  [if b then 1 else 0]

/-- Modelled from the spec: the integer response payload is 8 bytes, big-endian
two's complement (spec section 6). -/
def writeInt (i : Int) : List Nat :=
  beBytes 8 (i % (2 ^ 64 : Int)).toNat

/-- Modelled from the spec: the float response payload is the 8 IEEE-754
big-endian bytes, which is exactly the stored bit pattern (spec section 6). -/
def writeFloat (bits : List Nat) : List Nat :=
  bits

/-- Modelled from the spec: bytes responses are a 4-byte big-endian length then
the payload (spec section 6). -/
def writeBytes (bs : List Nat) : List Nat :=
  beBytes 4 bs.length ++ bs

/-- Modelled from the spec: string responses are encoded like bytes responses
(spec section 6). -/
def writeStr (s : List Nat) : List Nat :=
  beBytes 4 s.length ++ s

/-- Modelled from the spec: list and set responses are a 4-byte count then each
element as length-prefixed bytes (spec section 6). -/
def writeList (l : List (List Nat)) : List Nat :=
  beBytes 4 l.length ++ l.foldl (fun acc e => acc ++ beBytes 4 e.length ++ e) []

/-- Modelled from the spec: set responses use the list encoding
(spec section 6). -/
def writeSet (s : List (List Nat)) : List Nat :=
  writeList s

/-- Modelled from the spec: map responses are a 4-byte pair count then each
pair as two length-prefixed byte strings (spec section 6). -/
def writeMap (m : List (List Nat × List Nat)) : List Nat :=
  beBytes 4 m.length ++
    m.foldl (fun acc p =>
      acc ++ beBytes 4 p.1.length ++ p.1 ++ beBytes 4 p.2.length ++ p.2) []

/-- The response writer for a value, dispatching on its kind. -/
def writeValue : Value → List Nat
  | .boolean b => writeBool b
  | .bytes bs => writeBytes bs
  | .float bits => writeFloat bits
  | .integer i => writeInt i
  | .list l => writeList l
  | .map m => writeMap m
  | .set s => writeSet s
  | .str s => writeStr s

/-- Modelled from the spec: decoding a boolean argument, the inverse of the
one-byte boolean encoding (spec section 6). -/
def parseBool : List Nat → Option Bool
  | [0] => some false
  | [1] => some true
  | _ => none

/-- Modelled from the spec: decoding an integer argument from exactly 8
big-endian two's-complement bytes (spec section 6; the engine's own Set tests
feed `i64::to_be_bytes`). -/
def parseI64 (bs : List Nat) : Option Int :=
  if bs.length = 8 then
    let n := beToNat bs
    some (if n < 2 ^ 63 then (n : Int) else (n : Int) - 2 ^ 64)
  else
    none

/-- Modelled from the spec: decoding a float argument from exactly 8 IEEE-754
big-endian bytes, kept as the raw bit pattern (spec section 6). -/
def parseFloatBits (bs : List Nat) : Option (List Nat) :=
  if bs.length = 8 then some bs else none

/-- Modelled from the spec: `Request::typed_arg::<bool>(i)`. -/
def Request.typed_arg_bool (req : Request) (i : Nat) : Option Bool :=
  (req.arg i).bind parseBool

/-- Modelled from the spec: `Request::typed_arg::<i64>(i)`. -/
def Request.typed_arg_int (req : Request) (i : Nat) : Option Int :=
  (req.arg i).bind parseI64

/-- Modelled from the spec: `Request::typed_arg::<f64>(i)`, as raw bits. -/
def Request.typed_arg_float (req : Request) (i : Nat) : Option (List Nat) :=
  (req.arg i).bind parseFloatBits

/-- Modelled from the spec: `Request::typed_arg::<&str>(i)` succeeds exactly on
valid UTF-8. -/
def Request.typed_arg_str (req : Request) (i : Nat) : Option (List Nat) :=
  (req.arg i).bind fun a => if isUtf8 a then some a else none

/-- Consecutive pairs of a list; `none` when the length is odd. -/
def toPairs : List (List Nat) → Option (List (List Nat × List Nat))
  | [] => some []
  | [_] => none
  | a :: b :: rest => (toPairs rest).map fun ps => (a, b) :: ps

/-- Insert a pair into an insertion-ordered map, overwriting the value of an
existing key in place. -/
def mapInsert : List (List Nat × List Nat) → List Nat → List Nat →
    List (List Nat × List Nat)
  | [], k, v => [(k, v)]
  | (k', v') :: rest, k, v =>
    if k' = k then (k, v) :: rest else (k', v') :: mapInsert rest k v

/-- Build an insertion-ordered map from key/value pairs, in order. -/
def mapOfPairs (ps : List (List Nat × List Nat)) : List (List Nat × List Nat) :=
  ps.foldl (fun m p => mapInsert m p.1 p.2) []

/-- Deduplicate a list keeping first occurrences, as collecting into a set. -/
def dedup : List (List Nat) → List (List Nat)
  | [] => []
  | a :: rest => a :: (dedup rest).filter fun b => ¬ b = a

/-- Modelled from the spec: `Request::typed_args()` for the `Map` kind decodes
the arguments after the key as key/value pairs (spec section 4.6). -/
def Request.typed_args_map (req : Request) : Option (List (List Nat × List Nat)) :=
  (req.args_from 1).bind fun l => (toPairs l).map mapOfPairs

/-- Modelled from the spec: `Request::typed_args()` for the `Set` kind collects
all arguments after the key into a deduplicated set (spec section 4.6). -/
def Request.typed_args_set (req : Request) : Option (List (List Nat)) :=
  (req.args_from 1).map dedup

/-- The dispatch error taxonomy, from the spec's error design. -/
inductive DispatchError
  | keyUnspecified
  | keyNonexistent
  | keyTypeDifferent
  | keyTypeRequired
  | keyTypeUnexpected
  | keyRetrieval
  | argumentRetrieval
deriving DecidableEq, Repr

/-- The outcome of dispatching one command: the store after the dispatch and
either the response payload or a `DispatchError`.  In the source the store is
mutated in place, so the store component carries any mutation made before an
early error return. -/
abbrev DispatchOutcome := State × Except DispatchError (List Nat)

/-- From `impl/append.rs`: `Append::dispatch`.  The key is `arg(0)`, the
appended values are `args(1..)`; the branch is chosen by the declared key type,
with `None` handled together with `Bytes`; `String` appends skip arguments that
are not valid UTF-8. -/
def Append.dispatch (st : State) (req : Request) : DispatchOutcome :=
  match req.arg 0 with
  | none => (st, .error .keyUnspecified)
  | some key =>
    match req.args_from 1 with
    | none => (st, .error .argumentRetrieval)
    | some args =>
      match req.keyType with
      | some .bytes | none =>
        match st.get key with
        | some (.bytes bs) =>
          let bs' := args.foldl (fun acc a => acc ++ a) bs
          (st.update key (.bytes bs'), .ok (writeBytes bs'))
        | _ => (st, .error .keyTypeDifferent)
      | some .list =>
        match st.get key with
        | some (.list l) =>
          let l' := l ++ args
          (st.update key (.list l'), .ok (writeList l'))
        | _ => (st, .error .keyTypeDifferent)
      | some .string =>
        match st.get key with
        | some (.str s) =>
          let s' := args.foldl (fun acc a => if isUtf8 a then acc ++ a else acc) s
          (st.update key (.str s'), .ok (writeStr s'))
        | _ => (st, .error .keyTypeDifferent)
      | some _ => (st, .error .keyTypeDifferent)

/-- From `impl/set.rs`: `Set::boolean`. -/
def Set.boolean (st : State) (req : Request) (key : Key) : DispatchOutcome :=
  match req.typed_arg_bool 1 with
  | none => (st, .error .argumentRetrieval)
  | some arg =>
    let st1 := st.remove key
    let st2 := st1.key_or_insert_with key fun _ => .boolean false
    match st2.get key with
    | some (.boolean _) => (st2.update key (.boolean arg), .ok (writeBool arg))
    | _ => (st2, .error .keyTypeDifferent)

/-- From `impl/set.rs`: `Set::bytes`. -/
def Set.bytes (st : State) (req : Request) (key : Key) : DispatchOutcome :=
  match req.arg 1 with
  | none => (st, .error .argumentRetrieval)
  | some arg =>
    let st1 := st.remove key
    let st2 := st1.key_or_insert_with key fun _ => .bytes []
    match st2.get key with
    | some (.bytes _) => (st2.update key (.bytes arg), .ok (writeBytes arg))
    | _ => (st2, .error .keyTypeDifferent)

/-- From `impl/set.rs`: `Set::float`.  The argument is kept as its raw 8-byte
big-endian bit pattern. -/
def Set.float (st : State) (req : Request) (key : Key) : DispatchOutcome :=
  match req.typed_arg_float 1 with
  | none => (st, .error .argumentRetrieval)
  | some arg =>
    let st1 := st.remove key
    let st2 := st1.key_or_insert_with key fun _ => .float floatZeroBits
    match st2.get key with
    | some (.float _) => (st2.update key (.float arg), .ok (writeFloat arg))
    | _ => (st2, .error .keyTypeDifferent)

/-- From `impl/set.rs`: `Set::integer`. -/
def Set.integer (st : State) (req : Request) (key : Key) : DispatchOutcome :=
  match req.typed_arg_int 1 with
  | none => (st, .error .argumentRetrieval)
  | some arg =>
    let st1 := st.remove key
    let st2 := st1.key_or_insert_with key fun _ => .integer 0
    match st2.get key with
    | some (.integer _) => (st2.update key (.integer arg), .ok (writeInt arg))
    | _ => (st2, .error .keyTypeDifferent)

/-- From `impl/set.rs`: `Set::list`.  The source fetches `args(1..)` a second
time for the response after assigning the list. -/
def Set.list (st : State) (req : Request) (key : Key) : DispatchOutcome :=
  match req.args_from 1 with
  | none => (st, .error .argumentRetrieval)
  | some args =>
    let st1 := st.remove key
    let st2 := st1.key_or_insert_with key fun _ => .list []
    match st2.get key with
    | some (.list _) =>
      let st3 := st2.update key (.list args)
      match req.args_from 1 with
      | none => (st3, .error .argumentRetrieval)
      | some args2 => (st3, .ok (writeList args2))
    | _ => (st2, .error .keyTypeDifferent)

/-- From `impl/set.rs`: `Set::map`. -/
def Set.map (st : State) (req : Request) (key : Key) : DispatchOutcome :=
  match req.typed_args_map with
  | none => (st, .error .argumentRetrieval)
  | some args =>
    let st1 := st.remove key
    let st2 := st1.key_or_insert_with key fun _ => .map []
    match st2.get key with
    | some (.map _) => (st2.update key (.map args), .ok (writeMap args))
    | _ => (st2, .error .keyTypeDifferent)

/-- From `impl/set.rs`: `Set::set`. -/
def Set.set (st : State) (req : Request) (key : Key) : DispatchOutcome :=
  match req.typed_args_set with
  | none => (st, .error .argumentRetrieval)
  | some args =>
    let st1 := st.remove key
    let st2 := st1.key_or_insert_with key fun _ => .set []
    match st2.get key with
    | some (.set _) => (st2.update key (.set args), .ok (writeSet args))
    | _ => (st2, .error .keyTypeDifferent)

/-- From `impl/set.rs`: `Set::string`. -/
def Set.string (st : State) (req : Request) (key : Key) : DispatchOutcome :=
  match req.typed_arg_str 1 with
  | none => (st, .error .argumentRetrieval)
  | some arg =>
    let st1 := st.remove key
    let st2 := st1.key_or_insert_with key fun _ => .str []
    match st2.get key with
    | some (.str _) => (st2.update key (.str arg), .ok (writeStr arg))
    | _ => (st2, .error .keyTypeDifferent)

/-- From `impl/set.rs`: `Set::dispatch`.  The key is required, at least one
further argument is required, and the target kind is the declared key type,
else the stored key's kind, else `Bytes`. -/
def Set.dispatch (st : State) (req : Request) : DispatchOutcome :=
  match req.key with
  | none => (st, .error .keyUnspecified)
  | some key =>
    if (req.arg 1).isNone then (st, .error .argumentRetrieval)
    else
      let key_type := (req.keyType.orElse fun _ => st.keyType key).getD .bytes
      match key_type with
      | .bytes => Set.bytes st req key
      | .boolean => Set.boolean st req key
      | .float => Set.float st req key
      | .integer => Set.integer st req key
      | .list => Set.list st req key
      | .map => Set.map st req key
      | .set => Set.set st req key
      | .string => Set.string st req key

/-- Modelled from the spec: `Increment-By` resolves the numeric kind from the
declared key type, else the stored value's kind, else `Integer`; an absent key
is created as the empty value of that kind; the updated value is written
(spec section 4.6).  Overflow behavior is left open by the spec, so the
integer branch uses unbounded integers; IEEE-754 arithmetic is not modelled,
so the float branch leaves the stored bits unchanged (no claim observes float
arithmetic). -/
def IncrementBy.increment (st : State) (key : Key) (kt : Option KeyType)
    (amount : Int) : DispatchOutcome :=
  let kind := (kt.orElse fun _ => st.keyType key).getD .integer
  match kind with
  | .integer =>
    match st.get key with
    | some (.integer i) =>
      let v := i + amount
      (st.update key (.integer v), .ok (writeInt v))
    | some _ => (st, .error .keyTypeDifferent)
    | none =>
      let v := 0 + amount
      (st ++ [(key, .integer v)], .ok (writeInt v))
  | .float =>
    match st.get key with
    | some (.float bits) => (st, .ok (writeFloat bits))
    | some _ => (st, .error .keyTypeDifferent)
    | none => (st ++ [(key, .float floatZeroBits)], .ok (writeFloat floatZeroBits))
  | _ => (st, .error .keyTypeDifferent)

/-- From `impl/increment.rs`: `Increment::dispatch` resolves the key with
`KeyRetrieval` and defers to `IncrementBy::increment` with delta 1. -/
def Increment.dispatch (st : State) (req : Request) : DispatchOutcome :=
  match req.key with
  | none => (st, .error .keyRetrieval)
  | some key => IncrementBy.increment st key req.keyType 1

/-- Modelled from the spec: `Decrement` defers to Decrement-By with delta 1
(spec section 4.6), mirroring `Increment::dispatch`. -/
def Decrement.dispatch (st : State) (req : Request) : DispatchOutcome :=
  match req.key with
  | none => (st, .error .keyRetrieval)
  | some key => IncrementBy.increment st key req.keyType (-1)

/-- Modelled from the spec: `Increment-By` takes the delta from `arg(1)`,
decoded as the key's numeric type; the delta is decoded before any store
mutation, since the spec states failed dispatches leave the state unaffected
(spec sections 4.6 and 7). -/
def IncrementBy.dispatch (st : State) (req : Request) : DispatchOutcome :=
  match req.key with
  | none => (st, .error .keyUnspecified)
  | some key =>
    let kind := (req.keyType.orElse fun _ => st.keyType key).getD .integer
    match kind with
    | .integer =>
      match req.typed_arg_int 1 with
      | none => (st, .error .argumentRetrieval)
      | some delta => IncrementBy.increment st key (some .integer) delta
    | .float =>
      match req.typed_arg_float 1 with
      | none => (st, .error .argumentRetrieval)
      | some _ => IncrementBy.increment st key (some .float) 1
    | _ => (st, .error .keyTypeDifferent)

/-- Modelled from the spec: `Decrement-By`, as `Increment-By` with the negated
delta (spec section 4.6). -/
def DecrementBy.dispatch (st : State) (req : Request) : DispatchOutcome :=
  match req.key with
  | none => (st, .error .keyUnspecified)
  | some key =>
    let kind := (req.keyType.orElse fun _ => st.keyType key).getD .integer
    match kind with
    | .integer =>
      match req.typed_arg_int 1 with
      | none => (st, .error .argumentRetrieval)
      | some delta => IncrementBy.increment st key (some .integer) (-delta)
    | .float =>
      match req.typed_arg_float 1 with
      | none => (st, .error .argumentRetrieval)
      | some _ => IncrementBy.increment st key (some .float) (-1)
    | _ => (st, .error .keyTypeDifferent)

/-- Modelled from the spec: `Echo` requires an argument and writes it back
verbatim as bytes (spec section 4.6). -/
def Echo.dispatch (st : State) (req : Request) : DispatchOutcome :=
  match req.arg 0 with
  | none => (st, .error .argumentRetrieval)
  | some a => (st, .ok (writeBytes a))

/-- Modelled from the spec: `Get` writes the current value of the key with the
type-specific encoding (spec section 4.6). -/
def Get.dispatch (st : State) (req : Request) : DispatchOutcome :=
  match req.key with
  | none => (st, .error .keyUnspecified)
  | some key =>
    match st.get key with
    | none => (st, .error .keyNonexistent)
    | some v => (st, .ok (writeValue v))

/-- Modelled from the spec: `Delete` removes the key and writes the removed
key's bytes (spec section 4.6). -/
def Delete.dispatch (st : State) (req : Request) : DispatchOutcome :=
  match req.key with
  | none => (st, .error .keyUnspecified)
  | some key =>
    match st.get key with
    | none => (st, .error .keyNonexistent)
    | some _ => (st.remove key, .ok (writeBytes key))

/-- Modelled from the spec: `Rename` moves the value from `arg(0)` to `arg(1)`
and fails with `KeyNonexistent` when the source key is missing
(spec section 4.6). -/
def Rename.dispatch (st : State) (req : Request) : DispatchOutcome :=
  match req.arg 0 with
  | none => (st, .error .keyUnspecified)
  | some from_key =>
    match req.arg 1 with
    | none => (st, .error .argumentRetrieval)
    | some to_key =>
      match st.get from_key with
      | none => (st, .error .keyNonexistent)
      | some v => ((st.remove from_key).insert to_key v, .ok (writeBytes to_key))

/-- Modelled from the spec: `Exists` treats all arguments as keys and writes
true iff every key exists (spec section 4.6). -/
def ExistsCmd.dispatch (st : State) (req : Request) : DispatchOutcome :=
  match req.args with
  | none => (st, .error .argumentRetrieval)
  | some keys => (st, .ok (writeBool (keys.all fun k => (st.get k).isSome)))

/-- From `impl/is.rs`: `Is::dispatch`.  A declared key type is required, all
arguments are keys, and the response is true iff every key exists with the
declared kind. -/
def Is.dispatch (st : State) (req : Request) : DispatchOutcome :=
  match req.keyType with
  | none => (st, .error .keyTypeRequired)
  | some key_type =>
    match req.args with
    | none => (st, .error .argumentRetrieval)
    | some args =>
      let all := args.all fun key =>
        match st.get key with
        | some v => v.kind == key_type
        | none => false
      (st, .ok (writeBool all))

/-- From `impl/type.rs`: `Type::dispatch`.  The key is required, a declared key
type is rejected, and the stored kind's id is written as an integer. -/
def TypeCmd.dispatch (st : State) (req : Request) : DispatchOutcome :=
  match req.key with
  | none => (st, .error .keyUnspecified)
  | some key =>
    if req.keyType.isSome then (st, .error .keyTypeUnexpected)
    else
      match st.get key with
      | none => (st, .error .keyNonexistent)
      | some v => (st, .ok (writeInt v.kind.toId))

/-- Modelled from the spec: `Keys` requires its key to hold a map and writes
the ordered list of that map's keys (spec section 4.6). -/
def Keys.dispatch (st : State) (req : Request) : DispatchOutcome :=
  match req.key with
  | none => (st, .error .keyUnspecified)
  | some key =>
    match st.get key with
    | some (.map m) => (st, .ok (writeList (m.map Prod.fst)))
    | _ => (st, .error .keyTypeDifferent)

/-- Modelled from the spec: `Length` writes the element, pair or byte count of
the value; numeric and boolean values are an error (spec section 4.6). -/
def Length.dispatch (st : State) (req : Request) : DispatchOutcome :=
  match req.key with
  | none => (st, .error .keyUnspecified)
  | some key =>
    match st.get key with
    | none => (st, .error .keyNonexistent)
    | some (.bytes bs) => (st, .ok (writeInt bs.length))
    | some (.str s) => (st, .ok (writeInt s.length))
    | some (.list l) => (st, .ok (writeInt l.length))
    | some (.map m) => (st, .ok (writeInt m.length))
    | some (.set s) => (st, .ok (writeInt s.length))
    | some _ => (st, .error .keyTypeDifferent)

/-- Modelled from the spec: `Stats` is a simple command writing engine-level
counters; uptime and request counters live outside the store and are not
modelled, so the response payload is left empty here.  `Stats` never errors
and never touches the store, which is all any claim observes. -/
def Stats.dispatch (st : State) (_req : Request) : DispatchOutcome :=
  (st, .ok [])

/-- Modelled from the spec: the dispatcher routes a request to the
implementation of its command id (spec section 4.5). -/
def dispatch (st : State) (req : Request) : DispatchOutcome :=
  match req.kind with
  | .increment => Increment.dispatch st req
  | .decrement => Decrement.dispatch st req
  | .echo => Echo.dispatch st req
  | .set => Set.dispatch st req
  | .get => Get.dispatch st req
  | .delete => Delete.dispatch st req
  | .rename => Rename.dispatch st req
  | .exists => ExistsCmd.dispatch st req
  | .is => Is.dispatch st req
  | .type => TypeCmd.dispatch st req
  | .keys => Keys.dispatch st req
  | .length => Length.dispatch st req
  | .append => Append.dispatch st req
  | .stats => Stats.dispatch st req
  | .incrementBy => IncrementBy.dispatch st req
  | .decrementBy => DecrementBy.dispatch st req

/-- The per-kind population of a fresh value in `Set::dispatch`: one decoded
argument for the scalar kinds, key/value pairs for `Map`, and all remaining
arguments for `List` and `Set`. -/
def Set.populate (kt : KeyType) (req : Request) : Option Value :=
  match kt with
  | .bytes => (req.arg 1).map .bytes
  | .boolean => (req.typed_arg_bool 1).map .boolean
  | .float => (req.typed_arg_float 1).map .float
  | .integer => (req.typed_arg_int 1).map .integer
  | .list => (req.args_from 1).map .list
  | .map => req.typed_args_map.map .map
  | .set => req.typed_args_set.map .set
  | .string => (req.typed_arg_str 1).map .str

@[simp]
theorem Context.push_arg_idx (ctx : Context) (a : List Nat) :
    (ctx.push_arg a).idx = ctx.idx := by
  unfold Context.push_arg
  cases ctx.buf_args <;> rfl

@[simp]
theorem Context.push_arg_stage (ctx : Context) (a : List Nat) :
    (ctx.push_arg a).stage = ctx.stage := by
  unfold Context.push_arg
  cases ctx.buf_args <;> rfl

@[simp]
theorem Context.arg_count_idx (ctx : Context) :
    ctx.arg_count.2.idx = ctx.idx := by
  unfold Context.arg_count
  cases ctx.buf_args <;> rfl

@[simp]
theorem Context.arg_count_stage (ctx : Context) :
    ctx.arg_count.2.stage = ctx.stage := by
  unfold Context.arg_count
  cases ctx.buf_args <;> rfl

theorem Context.push_arg_count_pos (ctx : Context) (a : List Nat) :
    1 ≤ (ctx.push_arg a).arg_count.1 := by
  unfold Context.push_arg Context.arg_count
  cases ctx.buf_args <;> simp

theorem Context.stage_init_cases (ctx c : Context) (buf : List Nat)
    (concl : Conclusion) (h : ctx.stage_init buf = .ok (concl, c)) :
    (concl = .incomplete ∧ c = ctx) ∨
    (∃ req, concl = .finished req ∧ c = { ctx with stage := .init }) ∨
    (concl = .next ∧ c.idx = ctx.idx + 1) := by
  unfold Context.stage_init at h
  cases hb : buf.head? <;> rw [hb] at h
  · exact Or.inl (by cases h; exact ⟨rfl, rfl⟩)
  · simp only at h
    split at h
    · simp at h
    · split at h
      · simp at h
      · split at h
        · cases h
          exact Or.inr (Or.inl ⟨_, rfl, rfl⟩)
        · cases h
          exact Or.inr (Or.inr ⟨rfl, rfl⟩)

theorem Context.stage_kind_cases (ctx c : Context) (buf : List Nat)
    (kt : Option KeyType) (ct : CommandId) (concl : Conclusion)
    (h : ctx.stage_kind buf kt ct = .ok (concl, c)) :
    (concl = .incomplete ∧ c = ctx) ∨ (concl = .next ∧ c.idx = ctx.idx + 1) := by
  unfold Context.stage_kind at h
  cases hb : buf.get? ctx.idx <;> rw [hb] at h
  · exact Or.inl (by cases h; exact ⟨rfl, rfl⟩)
  · cases h
    exact Or.inr ⟨rfl, rfl⟩

theorem Context.stage_argument_parsing_cases (ctx c : Context) (buf : List Nat)
    (ct : CommandId) (kt : Option KeyType) (n : Nat) (concl : Conclusion)
    (h : ctx.stage_argument_parsing buf ct kt n = .ok (concl, c)) :
    (concl = .incomplete ∧ c = ctx) ∨
    ((∃ req, concl = .finished req) ∨ concl = .next) ∧
      ctx.idx + 4 ≤ c.idx ∧ c.stage = ctx.stage := by
  unfold Context.stage_argument_parsing at h
  cases h4 : sliceGet buf ctx.idx (ctx.idx + 4) <;> rw [h4] at h
  · exact Or.inl (by cases h; exact ⟨rfl, rfl⟩)
  · simp only at h
    split at h
    · cases h
      exact Or.inl ⟨rfl, rfl⟩
    · split at h
      · cases h
        refine Or.inr ⟨Or.inl ⟨_, rfl⟩, ?_, ?_⟩ <;> simp [Nat.le_add_right]
      · cases h
        refine Or.inr ⟨Or.inr rfl, ?_, ?_⟩ <;> simp [Nat.le_add_right]

theorem Context.stageStep_incomplete (ctx c : Context) (buf : List Nat)
    (h : ctx.stageStep buf = .ok (.incomplete, c)) : c = ctx := by
  unfold Context.stageStep at h
  cases hs : ctx.stage <;> rw [hs] at h
  · rcases ctx.stage_init_cases c buf _ h with ⟨_, h⟩ | ⟨req, h, _⟩ | ⟨h, _⟩
    · exact h
    · cases h
    · cases h
  · rcases ctx.stage_kind_cases c buf _ _ _ h with ⟨_, h⟩ | ⟨h, _⟩
    · exact h
    · cases h
  · rcases ctx.stage_argument_parsing_cases c buf _ _ _ _ h with ⟨_, h⟩ | ⟨⟨req, h⟩ | h, _⟩
    · exact h
    · cases h
    · cases h

theorem Context.stageStep_next_idx (ctx c : Context) (buf : List Nat)
    (h : ctx.stageStep buf = .ok (.next, c)) : ctx.idx < c.idx := by
  unfold Context.stageStep at h
  cases hs : ctx.stage <;> rw [hs] at h
  · rcases ctx.stage_init_cases c buf _ h with ⟨h, _⟩ | ⟨req, h, _⟩ | ⟨_, h⟩
    · cases h
    · cases h
    · omega
  · rcases ctx.stage_kind_cases c buf _ _ _ h with ⟨h, _⟩ | ⟨_, h⟩
    · cases h
    · omega
  · rcases ctx.stage_argument_parsing_cases c buf _ _ _ _ h with ⟨h, _⟩ | ⟨_, h, _⟩
    · cases h
    · omega

theorem feedAux_fuel_irrelevant (buf : List Nat) :
    ∀ f₁ f₂ (ctx : Context), buf.length + 1 - ctx.idx < f₁ →
      buf.length + 1 - ctx.idx < f₂ → feedAux f₁ ctx buf = feedAux f₂ ctx buf := by
  intro f₁
  induction f₁ with
  | zero => intro f₂ ctx h₁ _; omega
  | succ f ih =>
    intro f₂ ctx h₁ h₂
    cases f₂ with
    | zero => omega
    | succ f' =>
      simp only [feedAux]
      split
      · rfl
      · rename_i hguard
        cases hstep : ctx.stageStep buf with
        | error e => rfl
        | ok pr =>
          obtain ⟨concl, c⟩ := pr
          cases concl with
          | finished req => rfl
          | incomplete => rfl
          | next =>
            have hidx := ctx.stageStep_next_idx c buf hstep
            have hle : ctx.idx ≤ buf.length := by omega
            exact ih f' c (by omega) (by omega)

theorem feed_as_feedAux (ctx : Context) (buf : List Nat) (fuel : Nat)
    (h : buf.length + 1 - ctx.idx < fuel) : ctx.feed buf = feedAux fuel ctx buf := by
  unfold Context.feed
  exact feedAux_fuel_irrelevant buf _ fuel ctx (by omega) h

theorem sliceGet_append (buf t : List Nat) (s e : Nat) (bs : List Nat)
    (h : sliceGet buf s e = some bs) : sliceGet (buf ++ t) s e = some bs := by
  unfold sliceGet at h ⊢
  split at h
  · rename_i hcond
    cases h
    have hkeep : s ≤ e ∧ e ≤ (buf ++ t).length := by
      simp only [List.length_append]
      omega
    rw [if_pos hkeep]
    have hdrop : (buf ++ t).drop s = buf.drop s ++ t :=
      List.drop_append_of_le_length (by omega)
    rw [hdrop, List.take_append_of_le_length (by simp; omega)]
  · cases h

theorem stageStep_append (ctx c : Context) (buf t : List Nat) :
    (∀ req, ctx.stageStep buf = .ok (.finished req, c) →
        ctx.stageStep (buf ++ t) = .ok (.finished req, c)) ∧
    (ctx.stageStep buf = .ok (.next, c) → ctx.stageStep (buf ++ t) = .ok (.next, c)) ∧
    (∀ e, ctx.stageStep buf = .error e → ctx.stageStep (buf ++ t) = .error e) := by
  have hbase : ∀ r, (∀ c', r ≠ .ok (.incomplete, c')) → ctx.stageStep buf = r →
      ctx.stageStep (buf ++ t) = r := by
    intro r hnotinc h
    unfold Context.stageStep at h ⊢
    cases hs : ctx.stage <;> rw [hs] at h
    · unfold Context.stage_init at h ⊢
      cases hb : buf.head? with
      | none =>
        rw [hb] at h
        exact absurd h.symm (hnotinc ctx)
      | some b =>
        rw [hb] at h
        have hb' : (buf ++ t).head? = some b := by
          cases buf with
          | nil => cases hb
          | cons x xs => simpa using hb
        rw [hb']
        exact h
    · unfold Context.stage_kind at h ⊢
      cases hb : buf.get? ctx.idx with
      | none =>
        rw [hb] at h
        exact absurd h.symm (hnotinc ctx)
      | some b =>
        rw [hb] at h
        have hlt : ctx.idx < buf.length := (List.get?_eq_some.mp hb).1
        rw [List.get?_append hlt, hb]
        exact h
    · unfold Context.stage_argument_parsing at h ⊢
      cases h4 : sliceGet buf ctx.idx (ctx.idx + 4) with
      | none =>
        rw [h4] at h
        exact absurd h.symm (hnotinc ctx)
      | some len_bytes =>
        rw [h4] at h
        rw [sliceGet_append buf t _ _ _ h4]
        simp only at h ⊢
        cases ha : sliceGet buf ctx.idx (ctx.idx + beToNat len_bytes) with
        | none =>
          rw [ha] at h
          exact absurd h.symm (hnotinc ctx)
        | some arg =>
          rw [ha] at h
          rw [sliceGet_append buf t _ _ _ ha]
          exact h
  refine ⟨fun req h => hbase _ (by intro c'; simp) h,
          fun h => hbase _ (by intro c'; simp) h,
          fun e h => hbase _ (by intro c'; simp) h⟩

theorem feed_of_guard (ctx : Context) (buf : List Nat) (h : buf.length < ctx.idx) :
    ctx.feed buf = .ok (none, ctx) := by
  unfold Context.feed feedAux
  rw [if_pos h]

theorem feed_of_error (ctx : Context) (buf : List Nat) (e : ParseError)
    (hg : ¬ buf.length < ctx.idx) (h : ctx.stageStep buf = .error e) :
    ctx.feed buf = .error e := by
  unfold Context.feed feedAux
  rw [if_neg hg, h]

theorem feed_of_finished (ctx c : Context) (buf : List Nat) (req : Request)
    (hg : ¬ buf.length < ctx.idx) (h : ctx.stageStep buf = .ok (.finished req, c)) :
    ctx.feed buf = .ok (some req, c) := by
  unfold Context.feed feedAux
  rw [if_neg hg, h]

theorem feed_of_incomplete (ctx c : Context) (buf : List Nat)
    (hg : ¬ buf.length < ctx.idx) (h : ctx.stageStep buf = .ok (.incomplete, c)) :
    ctx.feed buf = .ok (none, c) := by
  unfold Context.feed feedAux
  rw [if_neg hg, h]

theorem feed_of_next (ctx c : Context) (buf : List Nat)
    (hg : ¬ buf.length < ctx.idx) (h : ctx.stageStep buf = .ok (.next, c)) :
    ctx.feed buf = c.feed buf := by
  have hidx := ctx.stageStep_next_idx c buf h
  unfold Context.feed
  conv_lhs => unfold feedAux
  rw [if_neg hg, h]
  exact feedAux_fuel_irrelevant buf _ _ c (by omega) (by omega)

theorem feed_append (buf t : List Nat) : ∀ fuel (ctx : Context),
    (∀ req c, feedAux fuel ctx buf = .ok (some req, c) →
        ctx.feed (buf ++ t) = .ok (some req, c)) ∧
    (∀ e, feedAux fuel ctx buf = .error e → ctx.feed (buf ++ t) = .error e) ∧
    (∀ c, feedAux fuel ctx buf = .ok (none, c) → buf.length + 1 - ctx.idx < fuel →
        ctx.feed (buf ++ t) = c.feed (buf ++ t)) := by
  intro fuel
  induction fuel with
  | zero =>
    intro ctx
    refine ⟨fun req c h => by simp [feedAux] at h,
            fun e h => by simp [feedAux] at h,
            fun c h hb => by omega⟩
  | succ f ih =>
    intro ctx
    have hlen : buf.length ≤ (buf ++ t).length := by simp
    refine ⟨?_, ?_, ?_⟩
    · intro req c h
      rw [feedAux] at h
      split at h
      · simp at h
      · rename_i hg
        have hg' : ¬ (buf ++ t).length < ctx.idx := by omega
        cases hstep : ctx.stageStep buf with
        | error e => rw [hstep] at h; simp at h
        | ok pr =>
          obtain ⟨concl, c'⟩ := pr
          rw [hstep] at h
          cases concl with
          | finished req' =>
            cases h
            exact feed_of_finished ctx c (buf ++ t) req hg'
              ((stageStep_append ctx c buf t).1 req hstep)
          | incomplete => simp at h
          | next =>
            have hnext := (stageStep_append ctx c' buf t).2.1 hstep
            rw [feed_of_next ctx c' (buf ++ t) hg' hnext]
            exact (ih c').1 req c h
    · intro e h
      rw [feedAux] at h
      split at h
      · simp at h
      · rename_i hg
        have hg' : ¬ (buf ++ t).length < ctx.idx := by omega
        cases hstep : ctx.stageStep buf with
        | error e' =>
          rw [hstep] at h
          cases h
          exact feed_of_error ctx (buf ++ t) e hg'
            ((stageStep_append ctx ctx buf t).2.2 e hstep)
        | ok pr =>
          obtain ⟨concl, c'⟩ := pr
          rw [hstep] at h
          cases concl with
          | finished req' => simp at h
          | incomplete => simp at h
          | next =>
            have hnext := (stageStep_append ctx c' buf t).2.1 hstep
            rw [feed_of_next ctx c' (buf ++ t) hg' hnext]
            exact (ih c').2.1 e h
    · intro c h hb
      rw [feedAux] at h
      split at h
      · cases h
        rfl
      · rename_i hg
        have hg' : ¬ (buf ++ t).length < ctx.idx := by omega
        cases hstep : ctx.stageStep buf with
        | error e' => rw [hstep] at h; simp at h
        | ok pr =>
          obtain ⟨concl, c'⟩ := pr
          rw [hstep] at h
          cases concl with
          | finished req' => simp at h
          | incomplete =>
            cases h
            have hceq := ctx.stageStep_incomplete c buf hstep
            rw [hceq]
          | next =>
            have hidx := ctx.stageStep_next_idx c' buf hstep
            have hnext := (stageStep_append ctx c' buf t).2.1 hstep
            rw [feed_of_next ctx c' (buf ++ t) hg' hnext]
            exact (ih c').2.2 c h (by omega)

theorem feed_prefix_some (ctx : Context) (buf t : List Nat) (req : Request)
    (c : Context) (h : ctx.feed buf = .ok (some req, c)) :
    ctx.feed (buf ++ t) = .ok (some req, c) :=
  (feed_append buf t (buf.length + 2) ctx).1 req c h

theorem feed_prefix_error (ctx : Context) (buf t : List Nat) (e : ParseError)
    (h : ctx.feed buf = .error e) : ctx.feed (buf ++ t) = .error e :=
  (feed_append buf t (buf.length + 2) ctx).2.1 e h

theorem feed_prefix_none (ctx : Context) (buf t : List Nat) (c : Context)
    (h : ctx.feed buf = .ok (none, c)) : ctx.feed (buf ++ t) = c.feed (buf ++ t) :=
  (feed_append buf t (buf.length + 2) ctx).2.2 c h (by omega)

theorem feed_none_idempotent (ctx c : Context) (buf : List Nat)
    (h : ctx.feed buf = .ok (none, c)) : c.feed buf = .ok (none, c) := by
  have hfix := feed_prefix_none ctx buf [] c (by simpa using h)
  rw [List.append_nil] at hfix
  rw [← hfix, h]

theorem runParts_complete (req : Request) : ∀ (parts : List (List Nat))
    (ctx : Context) (acc : List Nat) (s : Context),
    ctx.feed acc = .ok (none, ctx) →
    ctx.feed (acc ++ parts.flatten) = .ok (some req, s) →
    runParts ctx acc parts = .ok (some req) := by
  intro parts
  induction parts with
  | nil =>
    intro ctx acc s hacc hfull
    rw [List.flatten_nil, List.append_nil] at hfull
    rw [hacc] at hfull
    simp at hfull
  | cons p rest ih =>
    intro ctx acc s hacc hfull
    rw [List.flatten_cons, ← List.append_assoc] at hfull
    unfold runParts
    cases hB : ctx.feed (acc ++ p) with
    | error e =>
      have := feed_prefix_error ctx (acc ++ p) rest.flatten e hB
      rw [hfull] at this
      cases this
    | ok pr =>
      obtain ⟨res, c⟩ := pr
      cases res with
      | some req' =>
        have := feed_prefix_some ctx (acc ++ p) rest.flatten req' c hB
        rw [hfull] at this
        cases this
        rfl
      | none =>
        have hc : c.feed ((acc ++ p) ++ rest.flatten) = .ok (some req, s) := by
          rw [← feed_prefix_none ctx (acc ++ p) rest.flatten c hB]
          exact hfull
        exact ih c (acc ++ p) s (feed_none_idempotent ctx c (acc ++ p) hB) hc

theorem stageStep_preserves_init_inv (ctx c : Context) (buf : List Nat)
    (concl : Conclusion) (h : ctx.stageStep buf = .ok (concl, c))
    (hinv : ctx.stage = .init → ctx.idx = 0) : c.stage = .init → c.idx = 0 := by
  unfold Context.stageStep at h
  cases hs : ctx.stage <;> rw [hs] at h
  · rcases ctx.stage_init_cases c buf _ h with ⟨_, hc⟩ | ⟨req, _, hc⟩ | ⟨_, hc⟩
    · intro _
      rw [hc]
      exact hinv hs
    · intro _
      rw [hc]
      exact hinv hs
    · -- the next conclusion of the init stage moves to the kind stage
      unfold Context.stage_init at h
      cases hb : buf.head? <;> rw [hb] at h
      · cases h
        intro _
        exact hinv hs
      · simp only at h
        split at h
        · simp at h
        · split at h
          · simp at h
          · split at h
            · cases h
              intro _
              exact hinv hs
            · cases h
              intro hinit
              simp at hinit
  · unfold Context.stage_kind at h
    cases hb : buf.get? ctx.idx <;> rw [hb] at h
    · cases h
      intro hinit
      rw [hs] at hinit
      cases hinit
    · cases h
      intro hinit
      simp at hinit
  · rcases ctx.stage_argument_parsing_cases c buf _ _ _ _ h with ⟨_, hc⟩ | ⟨_, _, hstage⟩
    · intro hinit
      rw [hc, hs] at hinit
      cases hinit
    · intro hinit
      rw [hstage, hs] at hinit
      cases hinit

theorem feedAux_preserves_init_inv : ∀ (fuel : Nat) (ctx : Context) (buf : List Nat)
    (res : Option Request) (c : Context), feedAux fuel ctx buf = .ok (res, c) →
    (ctx.stage = .init → ctx.idx = 0) → (c.stage = .init → c.idx = 0) := by
  intro fuel
  induction fuel with
  | zero =>
    intro ctx buf res c h hinv
    cases h
    exact hinv
  | succ f ih =>
    intro ctx buf res c h hinv
    rw [feedAux] at h
    split at h
    · cases h
      exact hinv
    · cases hstep : ctx.stageStep buf with
      | error e => rw [hstep] at h; cases h
      | ok pr =>
        obtain ⟨concl, c'⟩ := pr
        rw [hstep] at h
        cases concl with
        | finished req =>
          cases h
          exact stageStep_preserves_init_inv ctx c buf _ hstep hinv
        | incomplete =>
          cases h
          exact stageStep_preserves_init_inv ctx c buf _ hstep hinv
        | next =>
          exact ih c' buf res c h (stageStep_preserves_init_inv ctx c' buf _ hstep hinv)

theorem feed_preserves_init_inv (ctx c : Context) (buf : List Nat)
    (res : Option Request) (h : ctx.feed buf = .ok (res, c))
    (hinv : ctx.stage = .init → ctx.idx = 0) : c.stage = .init → c.idx = 0 :=
  feedAux_preserves_init_inv (buf.length + 2) ctx buf res c h hinv

theorem stageStep_past_end (ctx : Context) (buf : List Nat)
    (hinv : ctx.stage = .init → ctx.idx = 0) (h : buf.length = ctx.idx) :
    ctx.stageStep buf = .ok (.incomplete, ctx) := by
  unfold Context.stageStep
  cases hs : ctx.stage
  · have hidx : ctx.idx = 0 := hinv hs
    have hnil : buf = [] := List.eq_nil_of_length_eq_zero (by omega)
    subst hnil
    rfl
  · unfold Context.stage_kind
    rw [List.get?_eq_none.mpr (by omega)]
  · unfold Context.stage_argument_parsing
    have h4 : sliceGet buf ctx.idx (ctx.idx + 4) = none := by
      unfold sliceGet
      rw [if_neg]
      omega
    rw [h4]

theorem feed_past_end (ctx : Context) (buf : List Nat)
    (hinv : ctx.stage = .init → ctx.idx = 0) (h : buf.length ≤ ctx.idx) :
    ctx.feed buf = .ok (none, ctx) := by
  rcases Nat.lt_or_ge ctx.idx buf.length with hlt | hge
  · omega
  · rcases Nat.eq_or_lt_of_le hge with heq | hlt
    · exact feed_of_incomplete ctx ctx buf (by omega)
        (stageStep_past_end ctx buf hinv heq)
    · exact feed_of_guard ctx buf hlt

theorem sliceGet_length (buf : List Nat) (s e : Nat) (bs : List Nat)
    (h : sliceGet buf s e = some bs) : bs.length = e - s := by
  unfold sliceGet at h
  split at h
  · rename_i hcond
    cases h
    simp
    omega
  · cases h

theorem Context.arg_count_fst (ctx : Context) :
    ctx.arg_count.1 = (ctx.buf_args.getD []).length := by
  unfold Context.arg_count
  cases ctx.buf_args <;> simp

theorem Context.push_arg_buf_args (ctx : Context) (a : List Nat) :
    (ctx.push_arg a).buf_args = some (ctx.buf_args.getD [] ++ [a]) := by
  unfold Context.push_arg
  cases ctx.buf_args <;> simp

theorem stage_argument_parsing_finish_count_pos (ctx c : Context) (buf : List Nat)
    (ct : CommandId) (kt : Option KeyType) (n : Nat) (req : Request)
    (h : ctx.stage_argument_parsing buf ct kt n = .ok (.finished req, c)) : 1 ≤ n := by
  unfold Context.stage_argument_parsing at h
  split at h
  · cases h
  · simp only at h
    split at h
    · cases h
    · split at h
      · rename_i heqcount
        rw [beq_iff_eq] at heqcount
        simp only [Context.arg_count_fst, Context.push_arg_buf_args, Option.getD_some,
          List.length_append, List.length_cons, List.length_nil] at heqcount
        omega
      · cases h

theorem stage_argument_parsing_no_error (ctx : Context) (buf : List Nat)
    (ct : CommandId) (kt : Option KeyType) (n : Nat) :
    ∃ pr, ctx.stage_argument_parsing buf ct kt n = .ok pr := by
  unfold Context.stage_argument_parsing
  split
  · exact ⟨_, rfl⟩
  · simp only
    split
    · exact ⟨_, rfl⟩
    · split
      · exact ⟨_, rfl⟩
      · exact ⟨_, rfl⟩

theorem feedAux_zero_count (ct : CommandId) (kt : Option KeyType) :
    ∀ (fuel : Nat) (ctx : Context) (buf : List Nat),
    ctx.stage = .argumentParsing 0 ct kt →
    ∃ c, feedAux fuel ctx buf = .ok (none, c) ∧ c.stage = .argumentParsing 0 ct kt := by
  intro fuel
  induction fuel with
  | zero =>
    intro ctx buf hs
    exact ⟨ctx, rfl, hs⟩
  | succ f ih =>
    intro ctx buf hs
    rw [feedAux]
    split
    · exact ⟨ctx, rfl, hs⟩
    · have hstep : ctx.stageStep buf = ctx.stage_argument_parsing buf ct kt 0 := by
        unfold Context.stageStep
        rw [hs]
      obtain ⟨⟨concl, c'⟩, hpr⟩ := stage_argument_parsing_no_error ctx buf ct kt 0
      rw [hstep, hpr]
      cases concl with
      | finished req =>
        exact absurd (stage_argument_parsing_finish_count_pos ctx c' buf ct kt 0 req hpr)
          (by omega)
      | incomplete =>
        have hc := ctx.stageStep_incomplete c' buf (by rw [hstep]; exact hpr)
        exact ⟨c', by simp, by rw [hc]; exact hs⟩
      | next =>
        have hstage : c'.stage = ctx.stage := by
          rcases ctx.stage_argument_parsing_cases c' buf ct kt 0 _ hpr with
            ⟨hcontra, _⟩ | ⟨_, _, hstage⟩
          · cases hcontra
          · exact hstage
        exact ih c' buf (by rw [hstage]; exact hs)

theorem feed_zero_count (ctx : Context) (buf : List Nat) (ct : CommandId)
    (kt : Option KeyType) (hs : ctx.stage = .argumentParsing 0 ct kt) :
    ∃ c, ctx.feed buf = .ok (none, c) ∧ c.stage = .argumentParsing 0 ct kt :=
  feedAux_zero_count ct kt (buf.length + 2) ctx buf hs

theorem State.get_remove_self (st : State) (k : Key) : (st.remove k).get k = none := by
  induction st with
  | nil => rfl
  | cons p rest ih =>
    obtain ⟨k', v⟩ := p
    simp only [State.remove]
    by_cases hk : k' = k
    · rw [if_pos hk]
      exact ih
    · rw [if_neg hk]
      simp only [State.get]
      rw [if_neg hk]
      exact ih

theorem State.get_append_absent (st : State) (k : Key) (v : Value)
    (h : st.get k = none) : (st ++ [(k, v)]).get k = some v := by
  induction st with
  | nil => simp [State.get]
  | cons p rest ih =>
    obtain ⟨k', w⟩ := p
    simp only [State.get] at h
    rw [List.cons_append]
    simp only [State.get]
    by_cases hk : k' = k
    · rw [if_pos hk] at h
      cases h
    · rw [if_neg hk] at h ⊢
      exact ih h

theorem State.update_append_absent (st : State) (k : Key) (v0 v : Value)
    (h : st.get k = none) : (st ++ [(k, v0)]).update k v = st ++ [(k, v)] := by
  induction st with
  | nil => simp [State.update]
  | cons p rest ih =>
    obtain ⟨k', w⟩ := p
    simp only [State.get] at h
    by_cases hk : k' = k
    · rw [if_pos hk] at h
      cases h
    · rw [if_neg hk] at h
      rw [List.cons_append, List.cons_append]
      simp only [State.update]
      rw [if_neg hk, ih h]

theorem State.key_or_insert_with_absent (st : State) (k : Key) (f : Unit → Value)
    (h : st.get k = none) : st.key_or_insert_with k f = st ++ [(k, f ())] := by
  unfold State.key_or_insert_with
  rw [h]

theorem Set.boolean_spec (st : State) (req : Request) (key : Key) :
    Set.boolean st req key =
      match req.typed_arg_bool 1 with
      | none => (st, .error .argumentRetrieval)
      | some a => (st.remove key ++ [(key, .boolean a)], .ok (writeBool a)) := by
  unfold Set.boolean
  cases harg : req.typed_arg_bool 1 with
  | none => rfl
  | some a =>
    simp only
    rw [State.key_or_insert_with_absent _ _ _ (State.get_remove_self st key),
        State.get_append_absent _ _ _ (State.get_remove_self st key)]
    simp only
    rw [State.update_append_absent _ _ _ _ (State.get_remove_self st key)]

theorem Set.bytes_spec (st : State) (req : Request) (key : Key) :
    Set.bytes st req key =
      match req.arg 1 with
      | none => (st, .error .argumentRetrieval)
      | some a => (st.remove key ++ [(key, .bytes a)], .ok (writeBytes a)) := by
  unfold Set.bytes
  cases harg : req.arg 1 with
  | none => rfl
  | some a =>
    simp only
    rw [State.key_or_insert_with_absent _ _ _ (State.get_remove_self st key),
        State.get_append_absent _ _ _ (State.get_remove_self st key)]
    simp only
    rw [State.update_append_absent _ _ _ _ (State.get_remove_self st key)]

theorem Set.float_spec (st : State) (req : Request) (key : Key) :
    Set.float st req key =
      match req.typed_arg_float 1 with
      | none => (st, .error .argumentRetrieval)
      | some a => (st.remove key ++ [(key, .float a)], .ok (writeFloat a)) := by
  unfold Set.float
  cases harg : req.typed_arg_float 1 with
  | none => rfl
  | some a =>
    simp only
    rw [State.key_or_insert_with_absent _ _ _ (State.get_remove_self st key),
        State.get_append_absent _ _ _ (State.get_remove_self st key)]
    simp only
    rw [State.update_append_absent _ _ _ _ (State.get_remove_self st key)]

theorem Set.integer_spec (st : State) (req : Request) (key : Key) :
    Set.integer st req key =
      match req.typed_arg_int 1 with
      | none => (st, .error .argumentRetrieval)
      | some a => (st.remove key ++ [(key, .integer a)], .ok (writeInt a)) := by
  unfold Set.integer
  cases harg : req.typed_arg_int 1 with
  | none => rfl
  | some a =>
    simp only
    rw [State.key_or_insert_with_absent _ _ _ (State.get_remove_self st key),
        State.get_append_absent _ _ _ (State.get_remove_self st key)]
    simp only
    rw [State.update_append_absent _ _ _ _ (State.get_remove_self st key)]

theorem Set.list_spec (st : State) (req : Request) (key : Key) :
    Set.list st req key =
      match req.args_from 1 with
      | none => (st, .error .argumentRetrieval)
      | some args => (st.remove key ++ [(key, .list args)], .ok (writeList args)) := by
  unfold Set.list
  cases harg : req.args_from 1 with
  | none => rfl
  | some args =>
    simp only
    rw [State.key_or_insert_with_absent _ _ _ (State.get_remove_self st key),
        State.get_append_absent _ _ _ (State.get_remove_self st key)]
    simp only
    rw [State.update_append_absent _ _ _ _ (State.get_remove_self st key)]

theorem Set.map_spec (st : State) (req : Request) (key : Key) :
    Set.map st req key =
      match req.typed_args_map with
      | none => (st, .error .argumentRetrieval)
      | some args => (st.remove key ++ [(key, .map args)], .ok (writeMap args)) := by
  unfold Set.map
  cases harg : req.typed_args_map with
  | none => rfl
  | some args =>
    simp only
    rw [State.key_or_insert_with_absent _ _ _ (State.get_remove_self st key),
        State.get_append_absent _ _ _ (State.get_remove_self st key)]
    simp only
    rw [State.update_append_absent _ _ _ _ (State.get_remove_self st key)]

theorem Set.set_spec (st : State) (req : Request) (key : Key) :
    Set.set st req key =
      match req.typed_args_set with
      | none => (st, .error .argumentRetrieval)
      | some args => (st.remove key ++ [(key, .set args)], .ok (writeSet args)) := by
  unfold Set.set
  cases harg : req.typed_args_set with
  | none => rfl
  | some args =>
    simp only
    rw [State.key_or_insert_with_absent _ _ _ (State.get_remove_self st key),
        State.get_append_absent _ _ _ (State.get_remove_self st key)]
    simp only
    rw [State.update_append_absent _ _ _ _ (State.get_remove_self st key)]

theorem Set.string_spec (st : State) (req : Request) (key : Key) :
    Set.string st req key =
      match req.typed_arg_str 1 with
      | none => (st, .error .argumentRetrieval)
      | some a => (st.remove key ++ [(key, .str a)], .ok (writeStr a)) := by
  unfold Set.string
  cases harg : req.typed_arg_str 1 with
  | none => rfl
  | some a =>
    simp only
    rw [State.key_or_insert_with_absent _ _ _ (State.get_remove_self st key),
        State.get_append_absent _ _ _ (State.get_remove_self st key)]
    simp only
    rw [State.update_append_absent _ _ _ _ (State.get_remove_self st key)]

theorem Set.dispatch_populate (st : State) (req : Request) (key a : List Nat)
    (hkey : req.key = some key) (ha : req.arg 1 = some a) :
    Set.dispatch st req =
      match Set.populate ((req.keyType.orElse fun _ => st.keyType key).getD .bytes) req with
      | none => (st, .error .argumentRetrieval)
      | some v => (st.remove key ++ [(key, v)], .ok (writeValue v)) := by
  unfold Set.dispatch
  rw [hkey]
  simp only [ha, Option.isNone_some, Bool.false_eq_true, if_false]
  cases hkt : (req.keyType.orElse fun _ => st.keyType key).getD .bytes
  · rw [Set.bytes_spec]
    simp only [Set.populate]
    cases req.arg 1 <;> rfl
  · rw [Set.boolean_spec]
    simp only [Set.populate]
    cases req.typed_arg_bool 1 <;> rfl
  · rw [Set.float_spec]
    simp only [Set.populate]
    cases req.typed_arg_float 1 <;> rfl
  · rw [Set.integer_spec]
    simp only [Set.populate]
    cases req.typed_arg_int 1 <;> rfl
  · rw [Set.list_spec]
    simp only [Set.populate]
    cases req.args_from 1 <;> rfl
  · rw [Set.map_spec]
    simp only [Set.populate]
    cases req.typed_args_map <;> rfl
  · rw [Set.set_spec]
    simp only [Set.populate]
    cases req.typed_args_set <;> rfl
  · rw [Set.string_spec]
    simp only [Set.populate]
    cases req.typed_arg_str 1 <;> rfl

theorem set_error_preserves (st st' : State) (req : Request) (e : DispatchError)
    (h : Set.dispatch st req = (st', .error e)) : st' = st := by
  unfold Set.dispatch at h
  cases hkey : req.key with
  | none =>
    rw [hkey] at h
    cases h
    rfl
  | some key =>
    rw [hkey] at h
    simp only at h
    split at h
    · cases h
      rfl
    · rename_i hne
      have ha : ∃ a, req.arg 1 = some a := by
        cases harg : req.arg 1
        · rw [harg] at hne
          simp at hne
        · exact ⟨_, rfl⟩
      obtain ⟨a, ha⟩ := ha
      split at h
      · rw [Set.bytes_spec] at h
        split at h
        · cases h; rfl
        · simp at h
      · rw [Set.boolean_spec] at h
        split at h
        · cases h; rfl
        · simp at h
      · rw [Set.float_spec] at h
        split at h
        · cases h; rfl
        · simp at h
      · rw [Set.integer_spec] at h
        split at h
        · cases h; rfl
        · simp at h
      · rw [Set.list_spec] at h
        split at h
        · cases h; rfl
        · simp at h
      · rw [Set.map_spec] at h
        split at h
        · cases h; rfl
        · simp at h
      · rw [Set.set_spec] at h
        split at h
        · cases h; rfl
        · simp at h
      · rw [Set.string_spec] at h
        split at h
        · cases h; rfl
        · simp at h

theorem append_error_preserves (st st' : State) (req : Request) (e : DispatchError)
    (h : Append.dispatch st req = (st', .error e)) : st' = st := by
  unfold Append.dispatch at h
  repeat' split at h
  all_goals first
  | (cases h; rfl)
  | simp at h

theorem increment_by_error_preserves (st st' : State) (key : Key)
    (kt : Option KeyType) (amount : Int) (e : DispatchError)
    (h : IncrementBy.increment st key kt amount = (st', .error e)) : st' = st := by
  unfold IncrementBy.increment at h
  simp only at h
  cases hkind : (kt.orElse fun _ => st.keyType key).getD KeyType.integer <;> rw [hkind] at h
  all_goals repeat' split at h
  all_goals first
  | (cases h; rfl)
  | simp at h

theorem increment_error_preserves (st st' : State) (req : Request) (e : DispatchError)
    (h : Increment.dispatch st req = (st', .error e)) : st' = st := by
  unfold Increment.dispatch at h
  repeat' split at h
  all_goals first
  | (cases h; rfl)
  | simp at h
  | exact increment_by_error_preserves _ _ _ _ _ _ h

theorem decrement_error_preserves (st st' : State) (req : Request) (e : DispatchError)
    (h : Decrement.dispatch st req = (st', .error e)) : st' = st := by
  unfold Decrement.dispatch at h
  repeat' split at h
  all_goals first
  | (cases h; rfl)
  | simp at h
  | exact increment_by_error_preserves _ _ _ _ _ _ h

theorem increment_by_dispatch_error_preserves (st st' : State) (req : Request) (e : DispatchError)
    (h : IncrementBy.dispatch st req = (st', .error e)) : st' = st := by
  unfold IncrementBy.dispatch at h
  cases hkey : req.key with
  | none =>
    rw [hkey] at h
    cases h
    rfl
  | some key =>
    rw [hkey] at h
    simp only at h
    cases hkind : (req.keyType.orElse fun _ => st.keyType key).getD KeyType.integer <;>
      rw [hkind] at h
    all_goals repeat' split at h
    all_goals first
    | (cases h; rfl)
    | simp at h
    | exact increment_by_error_preserves _ _ _ _ _ _ h

theorem decrement_by_dispatch_error_preserves (st st' : State) (req : Request) (e : DispatchError)
    (h : DecrementBy.dispatch st req = (st', .error e)) : st' = st := by
  unfold DecrementBy.dispatch at h
  cases hkey : req.key with
  | none =>
    rw [hkey] at h
    cases h
    rfl
  | some key =>
    rw [hkey] at h
    simp only at h
    cases hkind : (req.keyType.orElse fun _ => st.keyType key).getD KeyType.integer <;>
      rw [hkind] at h
    all_goals repeat' split at h
    all_goals first
    | (cases h; rfl)
    | simp at h
    | exact increment_by_error_preserves _ _ _ _ _ _ h

theorem echo_error_preserves (st st' : State) (req : Request) (e : DispatchError)
    (h : Echo.dispatch st req = (st', .error e)) : st' = st := by
  unfold Echo.dispatch at h
  split at h
  · cases h; rfl
  · simp at h

theorem get_error_preserves (st st' : State) (req : Request) (e : DispatchError)
    (h : Get.dispatch st req = (st', .error e)) : st' = st := by
  unfold Get.dispatch at h
  split at h
  · cases h; rfl
  · split at h
    · cases h; rfl
    · simp at h

theorem delete_error_preserves (st st' : State) (req : Request) (e : DispatchError)
    (h : Delete.dispatch st req = (st', .error e)) : st' = st := by
  unfold Delete.dispatch at h
  split at h
  · cases h; rfl
  · split at h
    · cases h; rfl
    · simp at h

theorem rename_error_preserves (st st' : State) (req : Request) (e : DispatchError)
    (h : Rename.dispatch st req = (st', .error e)) : st' = st := by
  unfold Rename.dispatch at h
  split at h
  · cases h; rfl
  · split at h
    · cases h; rfl
    · split at h
      · cases h; rfl
      · simp at h

theorem exists_error_preserves (st st' : State) (req : Request) (e : DispatchError)
    (h : ExistsCmd.dispatch st req = (st', .error e)) : st' = st := by
  unfold ExistsCmd.dispatch at h
  split at h
  · cases h; rfl
  · simp at h

theorem is_error_preserves (st st' : State) (req : Request) (e : DispatchError)
    (h : Is.dispatch st req = (st', .error e)) : st' = st := by
  unfold Is.dispatch at h
  split at h
  · cases h; rfl
  · split at h
    · cases h; rfl
    · simp at h

theorem type_error_preserves (st st' : State) (req : Request) (e : DispatchError)
    (h : TypeCmd.dispatch st req = (st', .error e)) : st' = st := by
  unfold TypeCmd.dispatch at h
  split at h
  · cases h; rfl
  · split at h
    · cases h; rfl
    · split at h
      · cases h; rfl
      · simp at h

theorem keys_error_preserves (st st' : State) (req : Request) (e : DispatchError)
    (h : Keys.dispatch st req = (st', .error e)) : st' = st := by
  unfold Keys.dispatch at h
  split at h
  · cases h; rfl
  · split at h
    · simp at h
    · cases h; rfl

theorem length_error_preserves (st st' : State) (req : Request) (e : DispatchError)
    (h : Length.dispatch st req = (st', .error e)) : st' = st := by
  unfold Length.dispatch at h
  split at h
  · cases h; rfl
  · split at h
    · cases h; rfl
    · simp at h
    · simp at h
    · simp at h
    · simp at h
    · simp at h
    · cases h; rfl

theorem stats_error_preserves (st st' : State) (req : Request) (e : DispatchError)
    (h : Stats.dispatch st req = (st', .error e)) : st' = st := by
  unfold Stats.dispatch at h
  simp at h

theorem dispatch_error_preserves (st st' : State) (req : Request) (e : DispatchError)
    (h : dispatch st req = (st', .error e)) : st' = st := by
  unfold dispatch at h
  cases hk : req.kind <;> rw [hk] at h
  · exact increment_error_preserves st st' req e h
  · exact decrement_error_preserves st st' req e h
  · exact echo_error_preserves st st' req e h
  · exact set_error_preserves st st' req e h
  · exact get_error_preserves st st' req e h
  · exact delete_error_preserves st st' req e h
  · exact rename_error_preserves st st' req e h
  · exact exists_error_preserves st st' req e h
  · exact is_error_preserves st st' req e h
  · exact type_error_preserves st st' req e h
  · exact keys_error_preserves st st' req e h
  · exact length_error_preserves st st' req e h
  · exact append_error_preserves st st' req e h
  · exact stats_error_preserves st st' req e h
  · exact increment_by_dispatch_error_preserves st st' req e h
  · exact decrement_by_dispatch_error_preserves st st' req e h

theorem KeyType.tryFrom_ge_eight (n : Nat) (h : 8 ≤ n) : KeyType.tryFrom n = none := by
  obtain ⟨m, rfl⟩ : ∃ m, n = m + 8 := ⟨n - 8, by omega⟩
  rfl

/-- C1: the claim says each parsed argument equals exactly the `L` payload
bytes following the 4 length bytes; the source instead slices
`buf[idx..idx + L]`, which starts at the length bytes, so feeding
`[0x00, 0x01, 0x00,0x00,0x00,0x03, 'f','o','o', 0x0A]` yields a request whose
single argument is `[0x00, 0x00, 0x00]` (the first three length bytes), not
`"foo"`.  This evaluates the code at the failing input. -/
theorem argument_includes_length_bytes :
    Context.fresh.feed [0, 1, 0, 0, 0, 3, 102, 111, 111, 10] =
      .ok (some { kind := .increment, keyType := none, args := some [[0, 0, 0]] },
           { buf_args := none, idx := 9, stage := .argumentParsing 1 CommandId.increment none }) ∧
    ([[0, 0, 0]] : List (List Nat)) ≠ [[102, 111, 111]] :=
  ⟨rfl, by decide⟩

/-- C2 counterexample: `Increment::dispatch` resolves its key with
`KeyRetrieval`, so a key-less increment request does not return
`KeyUnspecified` as the claim states. -/
theorem increment_missing_key_keyRetrieval :
    Increment.dispatch [] { kind := .increment, keyType := none, args := none } =
      ([], .error .keyRetrieval) ∧
    DispatchError.keyRetrieval ≠ DispatchError.keyUnspecified :=
  ⟨rfl, by decide⟩

/-- C2 (amended): when `arg(0)` is missing, `Append`, `Set` and `Type` return
`KeyUnspecified`, while `Increment` returns `KeyRetrieval`; none of them
touches the store. -/
theorem missing_key_errors (st : State) (req : Request) (h : req.arg 0 = none) :
    Append.dispatch st req = (st, .error .keyUnspecified) ∧
    Set.dispatch st req = (st, .error .keyUnspecified) ∧
    TypeCmd.dispatch st req = (st, .error .keyUnspecified) ∧
    Increment.dispatch st req = (st, .error .keyRetrieval) := by
  have hkey : req.key = none := h
  refine ⟨?_, ?_, ?_, ?_⟩
  · unfold Append.dispatch
    rw [h]
  · unfold Set.dispatch
    rw [hkey]
  · unfold TypeCmd.dispatch
    rw [hkey]
  · unfold Increment.dispatch
    rw [hkey]

/-- C2 witness: the guarantees at a concrete key-less request. -/
theorem missing_key_errors_witness :
    Append.dispatch [] { kind := .append, keyType := none, args := none } =
      ([], .error .keyUnspecified) ∧
    Set.dispatch [] { kind := .set, keyType := none, args := none } =
      ([], .error .keyUnspecified) ∧
    TypeCmd.dispatch [] { kind := .type, keyType := none, args := none } =
      ([], .error .keyUnspecified) ∧
    Increment.dispatch [] { kind := .increment, keyType := none, args := none } =
      ([], .error .keyRetrieval) :=
  missing_key_errors [] { kind := .append, keyType := none, args := none } rfl |>.imp id
    (fun hrest => hrest)

/-- C3 counterexample: after `Set(key_type=String, "foo", "bar")` the store
binds `foo` to `String("bar")`; `Append("foo", "baz")` with no declared key
type then fails with `KeyTypeDifferent` instead of succeeding with
`"barbaz"` as the claim states. -/
theorem append_untyped_after_set_string_fails :
    Append.dispatch [([102, 111, 111], Value.str [98, 97, 114])]
        { kind := .append, keyType := none, args := some [[102, 111, 111], [98, 97, 122]] } =
      ([([102, 111, 111], Value.str [98, 97, 114])], .error .keyTypeDifferent) ∧
    (Except.error DispatchError.keyTypeDifferent : Except DispatchError (List Nat)) ≠
      .ok (writeStr [98, 97, 114, 98, 97, 122]) :=
  ⟨rfl, by simp⟩

/-- C3 (amended): for every store, `Append` with no declared key type always
takes the `Bytes` branch, regardless of the stored value's kind — it appends
and responds only when the stored value is `Bytes`, and returns
`KeyTypeDifferent` for a missing key or any other stored kind.  In
particular, `Set(key_type=String, "foo", "bar")` responds `"bar"` and binds
`foo` to `String("bar")`, and the following untyped `Append("foo", "baz")`
returns `KeyTypeDifferent`, leaving the store unchanged. -/
theorem append_untyped_uses_bytes_branch :
    (∀ (st : State) (req : Request) (key : List Nat),
        req.keyType = none → req.arg 0 = some key →
        Append.dispatch st req =
          match req.args_from 1 with
          | none => (st, .error .argumentRetrieval)
          | some args =>
            match st.get key with
            | some (.bytes bs) =>
              (st.update key (.bytes (args.foldl (fun acc a => acc ++ a) bs)),
               .ok (writeBytes (args.foldl (fun acc a => acc ++ a) bs)))
            | _ => (st, .error .keyTypeDifferent)) ∧
    Set.dispatch []
        { kind := .set, keyType := some .string, args := some [[102, 111, 111], [98, 97, 114]] } =
      ([([102, 111, 111], Value.str [98, 97, 114])], .ok (writeStr [98, 97, 114])) ∧
    Append.dispatch [([102, 111, 111], Value.str [98, 97, 114])]
        { kind := .append, keyType := none, args := some [[102, 111, 111], [98, 97, 122]] } =
      ([([102, 111, 111], Value.str [98, 97, 114])], .error .keyTypeDifferent) ∧
    State.get [([102, 111, 111], Value.str [98, 97, 114])] [102, 111, 111] =
      some (.str [98, 97, 114]) := by
  refine ⟨?_, rfl, rfl, rfl⟩
  intro st req key hkt hkey
  unfold Append.dispatch
  rw [hkey, hkt]

/-- C3 witness: the universal part of the amended claim at the scenario's
concrete store and request. -/
theorem append_untyped_uses_bytes_branch_witness :
    Append.dispatch [([102, 111, 111], Value.str [98, 97, 114])]
        { kind := .append, keyType := none, args := some [[102, 111, 111], [98, 97, 122]] } =
      ([([102, 111, 111], Value.str [98, 97, 114])], .error .keyTypeDifferent) :=
  (append_untyped_uses_bytes_branch.1 [([102, 111, 111], Value.str [98, 97, 114])]
      { kind := .append, keyType := none, args := some [[102, 111, 111], [98, 97, 122]] }
      [102, 111, 111] rfl rfl).trans (by rfl)

/-- C4 counterexample: at the opcode byte `0x80` (bit 7 set) the claim's
recipe — low 7 bits shifted right by one — decodes the valid key type
`Bytes`, and the claim also asserts the full byte decodes as a command id;
the code instead shifts the whole byte (keeping bit 7), computes id 64, and
`feed` fails with `KeyTypeInvalid`; the full byte is no valid command id
either. -/
theorem opcode_high_bit_claimed_decode_rejected :
    Context.fresh.feed [128] = .error .keyTypeInvalid ∧
    KeyType.tryFrom ((128 &&& 127) >>> 1) = some .bytes ∧
    CommandId.tryFrom 128 = none :=
  ⟨rfl, rfl, rfl⟩

/-- C4 (amended): in the `Init` stage the key-type id of an opcode byte with
bit 7 set is the whole byte shifted right by one, which keeps the high bit
and is therefore at least 64; no valid `KeyType` id is that large, so every
such opcode makes `feed` return `KeyTypeInvalid` (and the byte is never
consulted as a `CommandId`). -/
theorem high_bit_opcode_keyTypeInvalid (b : Nat) (buf : List Nat)
    (h1 : 128 ≤ b) (h2 : b < 256) :
    Context.fresh.feed (b :: buf) = .error .keyTypeInvalid := by
  have hbit : b >>> 7 = 1 := by
    rw [Nat.shiftRight_eq_div_pow]
    omega
  have hge : 8 ≤ b >>> 1 := by
    rw [Nat.shiftRight_eq_div_pow]
    omega
  have hstep : Context.fresh.stageStep (b :: buf) = .error .keyTypeInvalid := by
    unfold Context.fresh Context.stageStep
    simp only
    unfold Context.stage_init
    simp only [List.head?_cons]
    rw [hbit, KeyType.tryFrom_ge_eight _ hge]
    rfl
  exact feed_of_error _ _ _ (by simp [Context.fresh]) hstep

/-- C4 witness: the amended behavior at the concrete opcode byte `0xA0`. -/
theorem high_bit_opcode_keyTypeInvalid_witness :
    Context.fresh.feed [160] = .error .keyTypeInvalid :=
  high_bit_opcode_keyTypeInvalid 160 [] (by decide) (by decide)

/-- C5 counterexample: a `Set` request with a key and one further argument
that is malformed for the resolved scalar kind (here `Integer` with a 1-byte
argument) returns `ArgumentRetrieval` and inserts nothing, where the claim
asserts a fresh populated value is inserted and written. -/
theorem set_malformed_scalar_rejected :
    Set.dispatch [] { kind := .set, keyType := some .integer, args := some [[110], [1]] } =
      ([], .error .argumentRetrieval) ∧
    State.get ([] : State) [110] = none ∧
    (Except.error DispatchError.argumentRetrieval : Except DispatchError (List Nat)) ≠
      .ok (writeInt 1) :=
  ⟨rfl, rfl, by simp⟩

/-- C5 (amended): for a `Set` request with a key, a missing further argument
returns `ArgumentRetrieval`; otherwise the target kind is the declared
`key_type`, else the stored key's kind, else `Bytes`, and when the remaining
arguments decode at that kind the previous binding is removed, a fresh value
populated from them is appended, and that value is written as the response;
when they do not decode (malformed scalar, odd map pairs), the dispatch
returns `ArgumentRetrieval` with the store unchanged. -/
theorem set_dispatch_spec (st : State) (req : Request) (key : List Nat)
    (hkey : req.key = some key) :
    ((req.arg 1).isNone → Set.dispatch st req = (st, .error .argumentRetrieval)) ∧
    (∀ a, req.arg 1 = some a →
      Set.dispatch st req =
        match Set.populate ((req.keyType.orElse fun _ => st.keyType key).getD .bytes) req with
        | none => (st, .error .argumentRetrieval)
        | some v => (st.remove key ++ [(key, v)], .ok (writeValue v))) := by
  constructor
  · intro hnone
    unfold Set.dispatch
    rw [hkey]
    simp only [hnone, if_true]
  · intro a ha
    exact Set.dispatch_populate st req key a hkey ha

/-- C5 witness: a well-formed integer `Set` at a concrete request. -/
theorem set_dispatch_spec_witness :
    Set.dispatch []
        { kind := .set, keyType := some .integer, args := some [[110], [0, 0, 0, 0, 0, 0, 0, 5]] } =
      ([([110], Value.integer 5)], .ok (writeInt 5)) :=
  ((set_dispatch_spec []
      { kind := .set, keyType := some .integer, args := some [[110], [0, 0, 0, 0, 0, 0, 0, 5]] }
      [110] rfl).2
    [0, 0, 0, 0, 0, 0, 0, 5] rfl).trans (by rfl)

/-- C6: parser resumability.  First: for any single-request byte stream `B`
(one whose one-shot feed from a fresh context yields a request) and any
partition of `B` into consecutive parts, feeding the cumulative input part by
part yields the same request.  Second: whenever a stage finds fewer bytes
than it requires it concludes `Incomplete` with the context — stage and
cursor — unchanged, so a later feed re-enters the same stage at the same
cursor. -/
theorem parser_resumability :
    (∀ (B : List Nat) (parts : List (List Nat)) (req : Request) (s : Context),
        parts.flatten = B → Context.fresh.feed B = .ok (some req, s) →
        runParts Context.fresh [] parts = .ok (some req)) ∧
    (∀ (ctx c : Context) (buf : List Nat),
        ctx.stageStep buf = .ok (.incomplete, c) → c = ctx) := by
  constructor
  · intro B parts req s hjoin hfull
    subst hjoin
    exact runParts_complete req parts Context.fresh [] s rfl hfull
  · intro ctx c buf h
    exact ctx.stageStep_incomplete c buf h

/-- C6 witness: the request of the spec's end-to-end scenario, fed in three
parts, equals the one-shot parse. -/
theorem parser_resumability_witness :
    runParts Context.fresh [] [[0, 1, 0], [0, 0, 3, 102], [111, 111, 10]] =
      .ok (some { kind := .increment, keyType := none, args := some [[0, 0, 0]] }) :=
  parser_resumability.1 [0, 1, 0, 0, 0, 3, 102, 111, 111, 10]
    [[0, 1, 0], [0, 0, 3, 102], [111, 111, 10]]
    { kind := .increment, keyType := none, args := some [[0, 0, 0]] }
    { buf_args := none, idx := 9, stage := .argumentParsing 1 CommandId.increment none }
    (by rfl) (by rfl)

/-- C7 counterexample: an `Is` request with a declared key type but no
argument list returns `ArgumentRetrieval` and writes nothing, where the claim
asserts the dispatch writes a boolean (vacuously true). -/
theorem is_missing_args_not_boolean :
    Is.dispatch [] { kind := .is, keyType := some .bytes, args := none } =
      ([], .error .argumentRetrieval) ∧
    (Except.error DispatchError.argumentRetrieval : Except DispatchError (List Nat)) ≠
      .ok (writeBool true) :=
  ⟨rfl, by simp⟩

/-- C7 (amended): `Is` without a declared key type returns `KeyTypeRequired`;
with a key type but no argument list it returns `ArgumentRetrieval`; otherwise
it writes a boolean that is true iff every argument key exists in the store
with stored kind equal to the declared key type. -/
theorem is_dispatch_spec (st : State) (req : Request) :
    (req.keyType = none → Is.dispatch st req = (st, .error .keyTypeRequired)) ∧
    (∀ t, req.keyType = some t → req.args = none →
      Is.dispatch st req = (st, .error .argumentRetrieval)) ∧
    (∀ t l, req.keyType = some t → req.args = some l →
      Is.dispatch st req =
        (st, .ok (writeBool (l.all fun k =>
          match st.get k with
          | some v => v.kind == t
          | none => false))) ∧
      ((l.all fun k =>
          match st.get k with
          | some v => v.kind == t
          | none => false) = true ↔
        ∀ k ∈ l, ∃ v, st.get k = some v ∧ v.kind = t)) := by
  refine ⟨?_, ?_, ?_⟩
  · intro hkt
    unfold Is.dispatch
    rw [hkt]
  · intro t hkt hargs
    unfold Is.dispatch
    rw [hkt, hargs]
  · intro t l hkt hargs
    constructor
    · unfold Is.dispatch
      rw [hkt, hargs]
    · rw [List.all_eq_true]
      constructor
      · intro hall k hk
        have hp := hall k hk
        cases hget : st.get k with
        | none => rw [hget] at hp; cases hp
        | some v =>
          rw [hget] at hp
          exact ⟨v, rfl, by simpa [beq_iff_eq] using hp⟩
      · intro hall k hk
        obtain ⟨v, hv, hkind⟩ := hall k hk
        rw [hv]
        simpa [beq_iff_eq] using hkind

/-- C7 witness: the spec's mixed-kind scenario, `Is(String, ["a","b"])` over
`a → String("")`, `b → Integer(0)` writes false. -/
theorem is_dispatch_spec_witness :
    Is.dispatch [([97], Value.str []), ([98], Value.integer 0)]
        { kind := .is, keyType := some .string, args := some [[97], [98]] } =
      ([([97], Value.str []), ([98], Value.integer 0)], .ok (writeBool false)) :=
  ((is_dispatch_spec [([97], Value.str []), ([98], Value.integer 0)]
      { kind := .is, keyType := some .string, args := some [[97], [98]] }).2.2
    .string [[97], [98]] rfl rfl).1.trans (by rfl)

/-- C8: a dispatch that returns a `DispatchError` leaves the store exactly as
it was; in particular, after `Set(key_type=Integer, "n", int64(5))` the
failing `Append(key_type=List, "n", "x")` returns `KeyTypeDifferent` with
`n → Integer(5)` unchanged. -/
theorem failed_dispatch_preserves_state :
    (∀ (st : State) (req : Request) (e : DispatchError),
        (dispatch st req).2 = .error e → (dispatch st req).1 = st) ∧
    (Set.dispatch []
        { kind := .set, keyType := some .integer, args := some [[110], [0, 0, 0, 0, 0, 0, 0, 5]] } =
      ([([110], Value.integer 5)], .ok (writeInt 5)) ∧
     dispatch [([110], Value.integer 5)]
        { kind := .append, keyType := some .list, args := some [[110], [120]] } =
      ([([110], Value.integer 5)], .error .keyTypeDifferent)) := by
  refine ⟨?_, rfl, rfl⟩
  intro st req e h
  have hpair : dispatch st req = ((dispatch st req).1, .error e) := by
    rw [← h]
  exact dispatch_error_preserves st (dispatch st req).1 req e hpair

/-- C8 witness: the preserved store at the concrete failing `Append`. -/
theorem failed_dispatch_preserves_state_witness :
    (dispatch [([110], Value.integer 5)]
        { kind := .append, keyType := some .list, args := some [[110], [120]] }).1 =
      [([110], Value.integer 5)] :=
  failed_dispatch_preserves_state.1 [([110], Value.integer 5)]
    { kind := .append, keyType := some .list, args := some [[110], [120]] }
    .keyTypeDifferent (by rfl)

/-- C9: `feed` is total by construction in this embedding; moreover every
slice read is bounds-checked — a successful `buf.get(s..e)` yields exactly
`e - s` bytes, so the 4-byte slice-to-array conversion receives exactly 4
bytes — the invariant that the `Init` stage is only ever entered at cursor 0
is preserved by `feed`, and under it a feed on an empty buffer, or with the
cursor at or past the end of the buffer, returns `Ok(None)` with the context
(stage and cursor) unchanged. -/
theorem feed_total_bounds :
    (∀ (buf : List Nat) (s e : Nat) (bs : List Nat),
        sliceGet buf s e = some bs → bs.length = e - s) ∧
    (∀ (ctx c : Context) (buf : List Nat) (res : Option Request),
        ctx.feed buf = .ok (res, c) → (ctx.stage = .init → ctx.idx = 0) →
        (c.stage = .init → c.idx = 0)) ∧
    (∀ (ctx : Context) (buf : List Nat), (ctx.stage = .init → ctx.idx = 0) →
        buf.length ≤ ctx.idx → ctx.feed buf = .ok (none, ctx)) ∧
    (∀ ctx : Context, ctx.feed [] = .ok (none, ctx)) := by
  refine ⟨sliceGet_length, ?_, feed_past_end, ?_⟩
  · intro ctx c buf res h hinv
    exact feed_preserves_init_inv ctx c buf res h hinv
  · intro ctx
    rcases Nat.eq_zero_or_pos ctx.idx with hz | hp
    · exact feed_of_incomplete ctx ctx [] (by omega)
        (stageStep_past_end ctx [] (fun _ => hz) (by simpa using hz.symm))
    · exact feed_of_guard ctx [] (by simpa using hp)

/-- C9 witness: the bounds facts at concrete inputs — the 4-byte length read
of the increment frame, invariant preservation across a parse of the simple
`Stats` frame, a feed past the cursor, and a feed of the empty buffer. -/
theorem feed_total_bounds_witness :
    ([0, 0, 0, 3] : List Nat).length = 6 - 2 ∧
    (({ buf_args := some [], idx := 0, stage := .init } : Context).stage = .init →
      ({ buf_args := some [], idx := 0, stage := .init } : Context).idx = 0) ∧
    Context.feed { buf_args := some [], idx := 5, stage := .kind CommandId.increment none } [1, 2, 3] =
      .ok (none, { buf_args := some [], idx := 5, stage := .kind CommandId.increment none }) ∧
    Context.feed { buf_args := some [], idx := 7, stage := .init } [] =
      .ok (none, { buf_args := some [], idx := 7, stage := .init }) :=
  ⟨feed_total_bounds.1 [0, 1, 0, 0, 0, 3] 2 6 [0, 0, 0, 3] (by rfl),
   feed_total_bounds.2.1 { buf_args := some [], idx := 0, stage := .init }
     { buf_args := some [], idx := 0, stage := .init } [13] (some
       { kind := .stats, keyType := none, args := none }) (by rfl) (fun _ => rfl),
   feed_total_bounds.2.2.1 { buf_args := some [], idx := 5, stage := .kind CommandId.increment none }
     [1, 2, 3] (by intro h; cases h) (by decide),
   feed_total_bounds.2.2.2 { buf_args := some [], idx := 7, stage := .init }⟩

/-- C10: once the parser is in the `ArgumentParsing` stage with a declared
argument count of 0 it never emits a request: every `feed` returns `Ok(None)`
and stays in that stage, because the finished check compares the accumulated
count only after pushing an argument, so the count at the check is at least 1
and never 0; feeding `[0x00, 0x00]` to a fresh context reaches exactly that
stage. -/
theorem zero_count_never_finishes :
    (∀ (ctx : Context) (buf : List Nat) (ct : CommandId) (kt : Option KeyType),
        ctx.stage = .argumentParsing 0 ct kt →
        ∃ c, ctx.feed buf = .ok (none, c) ∧ c.stage = .argumentParsing 0 ct kt) ∧
    (∀ (ctx c : Context) (buf : List Nat) (ct : CommandId) (kt : Option KeyType)
        (n : Nat) (req : Request),
        ctx.stage_argument_parsing buf ct kt n = .ok (.finished req, c) → 1 ≤ n) ∧
    Context.fresh.feed [0, 0] =
      .ok (none, { buf_args := some [], idx := 2, stage := .argumentParsing 0 CommandId.increment none }) :=
  ⟨feed_zero_count, stage_argument_parsing_finish_count_pos, rfl⟩

/-- C10 witness: a context stuck in the zero-count stage stays there on a
concrete feed. -/
theorem zero_count_never_finishes_witness :
    ∃ c, Context.feed
        { buf_args := some [], idx := 2, stage := .argumentParsing 0 CommandId.increment none }
        [0, 0, 0, 0, 0, 0] =
      .ok (none, c) ∧ c.stage = .argumentParsing 0 CommandId.increment none :=
  zero_count_never_finishes.1
    { buf_args := some [], idx := 2, stage := .argumentParsing 0 CommandId.increment none }
    [0, 0, 0, 0, 0, 0] .increment none rfl

end Hop
